import Mathlib

/-!
Verification of the per-key channel admission filter
(`src/rpc/src/server/filter.rs`).

The Rust code is embedded as an explicit state machine.  The shared heap
state created per key generation — the `Arc<K>` holding the key and the
`raii_counter` cell shared by `Counter`/`WeakCounter` handles — is modelled
by a `Cell` record holding the key value, the number of strong `Arc<K>`
references, and the counter value (the number of live `Counter` handles).
A `Tracker` is modelled by a `TrackerObj` recording which cell it
references and whether it has been dropped yet.  The `FnvHashMap` of
`TrackerPrototype`s is modelled as an association list from keys to cell
indices (a prototype holds a `Weak<K>` and a `WeakCounter` of one cell, so
a cell index captures it exactly).  The unbounded mpsc queue of dropped
keys is a FIFO list together with a flag recording whether the consuming
end is still open.
-/

set_option maxRecDepth 4000

namespace Tarpc

/-- The per-generation shared heap state for one key: the `Arc<K>` cell
(`key` is its value, `strong` its strong reference count) and the
`raii_counter` cell (`cnt` is the number of live `Counter` handles minted
from it; `WeakCounter` handles do not contribute). -/
structure Cell (K : Type) where
  key : K
  strong : Nat
  cnt : Nat
  deriving Repr, DecidableEq

/-- A `Tracker<K>` value: it holds one strong `Arc<K>` reference and one
`Counter` handle of the cell `cellId`; `alive = false` once it has been
dropped. -/
structure TrackerObj (K : Type) where
  keyVal : K
  cellId : Nat
  alive : Bool
  deriving Repr, DecidableEq

/-- The state of a `ChannelFilter` (minus the listener, which is modelled
separately): configured ceiling, the allocated heap cells, the
`key_counts` prototype map (key to cell index), the trackers minted so
far, the pending `dropped_keys` queue contents, and whether the queue's
consuming end is still open. -/
structure FilterState (K : Type) where
  channels_per_key : Nat
  cells : List (Cell K)
  key_counts : List (K × Nat)
  trackers : List (TrackerObj K)
  queue : List K
  rxOpen : Bool
  deriving Repr, DecidableEq

/-- The freshly constructed filter: empty map, empty queue, the filter
holds the consuming end of the queue. -/
def initState (K : Type) (channels_per_key : Nat) : FilterState K :=
  ⟨channels_per_key, [], [], [], [], true⟩

/-- Association-list lookup, modelling `FnvHashMap` lookup / `entry`. -/
def alookup {K : Type} [DecidableEq K] : List (K × Nat) → K → Option Nat
  | [], _ => none
  | (k, v) :: rest, key => if key = k then some v else alookup rest key

/-- Association-list removal of (the first occurrence of) a key,
modelling `FnvHashMap::remove`; under the no-duplicate-keys invariant
this is exact hash-map removal. -/
def aremove {K : Type} [DecidableEq K] : List (K × Nat) → K → List (K × Nat)
  | [], _ => []
  | (k, v) :: rest, key => if key = k then rest else (k, v) :: aremove rest key

/-- Modelled from the spec: `util::Compact` (the `Compact` trait of
`src/rpc/src/util.rs`, not present under `src/`) shrinks the hash map's
backing storage when occupancy falls below the given threshold.  It only
affects capacity, never the entries, so on the association-list model it
is the identity. -/
def compact {K : Type} (m : List (K × Nat)) : List (K × Nat) := m

/-- `mpsc::UnboundedSender::unbounded_send`: enqueue if the receiver is
still open; a send failure (receiver closed) is silently discarded. -/
def unbounded_send {K : Type} (s : FilterState K) (k : K) : FilterState K :=
  if s.rxOpen then { s with queue := s.queue ++ [k] } else s

/-- Result of `increment_channels_for_key`: a new tracker (its index into
`trackers`) together with the updated state, the rejected key handed back
unchanged (`Err(key)` carries no state change), or a panic. -/
inductive IncrementResult (K : Type) where
  | ok (trackerId : Nat) (s : FilterState K)
  | rejected (key : K)
  | panicked
  deriving Repr, DecidableEq

/-- `ChannelFilter::increment_channels_for_key`.

* Vacant entry: `Arc::new(key)` (strong = 1), `WeakCounter::new()` then
  `upgrade()` (cnt = 1); insert the weak prototype; return the tracker.
* Occupied entry: read `count` from the prototype's `WeakCounter`; if
  `count >= channels_per_key`, return `Err(key)`; otherwise
  `counter.upgrade()` and `key.upgrade().unwrap()` — the `unwrap`
  panics when the `Weak<K>` is dead (`strong = 0`).

A dangling cell index (impossible in Rust, where the prototype holds the
references themselves) is mapped to a panic; the reachability invariant
rules it out. -/
def increment_channels_for_key {K : Type} [DecidableEq K] (s : FilterState K) (key : K) :
    IncrementResult K :=
  match alookup s.key_counts key with
  | none =>
      .ok s.trackers.length
        { s with
          cells := s.cells ++ [⟨key, 1, 1⟩]
          key_counts := (key, s.cells.length) :: s.key_counts
          trackers := s.trackers ++ [⟨key, s.cells.length, true⟩] }
  | some cid =>
      match s.cells[cid]? with
      | none => .panicked
      | some c =>
          if c.cnt ≥ s.channels_per_key then
            .rejected key
          else if c.strong = 0 then
            .panicked
          else
            .ok s.trackers.length
              { s with
                cells := s.cells.set cid ⟨c.key, c.strong + 1, c.cnt + 1⟩
                trackers := s.trackers ++ [⟨c.key, cid, true⟩] }

/-- `Tracker::drop`.  If `self.counter.count() <= 1`, take the key and
`Arc::try_unwrap` it: on success (this was the unique strong reference)
the key is sent on `dropped_keys` (send failure silently ignored) —
otherwise the code hits `unreachable!()`, modelled as `none`.  In every
non-panicking case the field drops then release the `Counter` handle
(cnt decreases) and, when the key was not taken, the `Arc<K>` strong
reference (strong decreases).  Dropping a dead or unknown tracker is not
expressible in Rust and is also mapped to `none`. -/
def dropTracker {K : Type} [DecidableEq K] (s : FilterState K) (tid : Nat) :
    Option (FilterState K) :=
  match s.trackers[tid]? with
  | none => none
  | some t =>
      if t.alive = true then
        match s.cells[t.cellId]? with
        | none => none
        | some c =>
            if c.cnt ≤ 1 then
              if c.strong = 1 then
                some (unbounded_send
                  { s with
                    cells := s.cells.set t.cellId ⟨c.key, 0, c.cnt - 1⟩
                    trackers := s.trackers.set tid { t with alive := false } }
                  c.key)
              else
                none
            else
              some { s with
                cells := s.cells.set t.cellId ⟨c.key, c.strong - 1, c.cnt - 1⟩
                trackers := s.trackers.set tid { t with alive := false } }
      else none

/-- `ChannelFilter::poll_closed_channels`, ready case: a dropped key is
pending, so remove its map entry and compact.  Returns `none` when the
queue is empty (`Poll::Pending`; the `None`/`unreachable!()` arm cannot
fire because the filter itself holds `dropped_keys_tx`). -/
def poll_closed_channels {K : Type} [DecidableEq K] (s : FilterState K) :
    Option (FilterState K) :=
  match s.queue with
  | [] => none
  | k :: rest =>
      some { s with key_counts := compact (aremove s.key_counts k), queue := rest }

/-- Number of live `Counter` handles on cell `cid`, counted from the
tracker side. -/
def aliveCount {K : Type} (s : FilterState K) (cid : Nat) : Nat :=
  s.trackers.countP fun t => t.alive && decide (t.cellId = cid)

/-- Number of concurrently live (un-dropped) trackers for key `k`. -/
def liveKeyCount {K : Type} [DecidableEq K] (s : FilterState K) (k : K) : Nat :=
  s.trackers.countP fun t => t.alive && decide (t.keyVal = k)

/-- The fused upstream listener: the items it will still yield, and
whether the underlying stream then ends (`closed = true`) or stays
pending. -/
structure ListenerState (I : Type) where
  pending : List I
  closed : Bool
  deriving Repr, DecidableEq

/-- A `TrackedChannel`: the raw channel item together with (the index of)
the tracker minted for it. -/
structure TrackedChannel (I : Type) where
  inner : I
  trackerId : Nat
  deriving Repr, DecidableEq

/-- Result of `handle_new_channel`. -/
inductive HandleResult (I K : Type) where
  | ok (chan : TrackedChannel I) (s : FilterState K)
  | rejected (key : K)
  | panicked
  deriving Repr, DecidableEq

/-- `ChannelFilter::handle_new_channel`: derive the key via the keymaker,
run the admission decision, and on success wrap the raw item with its
tracker. -/
def handle_new_channel {I K : Type} [DecidableEq K] (keymaker : I → K)
    (s : FilterState K) (item : I) : HandleResult I K :=
  match increment_channels_for_key s (keymaker item) with
  | .ok tid s' => .ok ⟨item, tid⟩ s'
  | .rejected k => .rejected k
  | .panicked => .panicked

/-- Outcome of one `poll_next` call on the filter stream. -/
inductive PollOutcome (I : Type) where
  | yielded (chan : TrackedChannel I)
  | pending
  | completed
  | panicked
  deriving Repr, DecidableEq

/-- Full result of one `poll_next` call: outcome, final filter state,
final listener state, and the keys rejected during the call (the side
observability events). -/
structure PollResult (I K : Type) where
  outcome : PollOutcome I
  fs : FilterState K
  listener : ListenerState I
  rejectedKeys : List K
  deriving Repr, DecidableEq

/-- The loop body of `<ChannelFilter as Stream>::poll_next`, with an
explicit fuel argument so the recursion is structural.  Each loop
iteration evaluates the tuple `(poll_listener(cx), poll_closed_channels(cx))`
— left to right, so the listener is polled (and a ready arrival's
admission decided) first, and then one ready closed-key notification is
processed — and matches the pair against the source's five arms: yield an
admitted channel, continue after a rejection, continue after a processed
closed key, report `Pending`, or report completion when the listener is
exhausted with nothing pending on the closed-key queue.  A panic during
admission propagates out of the poll.  Every `continue` of the Rust loop
consumes at least one listener item or one queued key, so
`pending.length + queue.length + 1` fuel always suffices; the fuel-zero
fallback is unreachable from `pollNext`. -/
def pollNextGo {I K : Type} [DecidableEq K] (keymaker : I → K) :
    Nat → FilterState K → ListenerState I → List K → PollResult I K
  | 0, fs, ls, rejs => ⟨.pending, fs, ls, rejs⟩
  | fuel + 1, fs, ls, rejs =>
    match ls.pending with
    | item :: rest =>
        match handle_new_channel keymaker fs item with
        | .panicked => ⟨.panicked, fs, { ls with pending := rest }, rejs⟩
        | .ok chan fs1 =>
            match fs1.queue with
            | kq :: qrest =>
                ⟨.yielded chan,
                  { fs1 with key_counts := compact (aremove fs1.key_counts kq), queue := qrest },
                  { ls with pending := rest }, rejs⟩
            | [] => ⟨.yielded chan, fs1, { ls with pending := rest }, rejs⟩
        | .rejected k =>
            match fs.queue with
            | kq :: qrest =>
                pollNextGo keymaker fuel
                  { fs with key_counts := compact (aremove fs.key_counts kq), queue := qrest }
                  { ls with pending := rest } (rejs ++ [k])
            | [] => pollNextGo keymaker fuel fs { ls with pending := rest } (rejs ++ [k])
    | [] =>
        match fs.queue with
        | kq :: qrest =>
            pollNextGo keymaker fuel
              { fs with key_counts := compact (aremove fs.key_counts kq), queue := qrest }
              ls rejs
        | [] =>
            if ls.closed then ⟨.completed, fs, ls, rejs⟩
            else ⟨.pending, fs, ls, rejs⟩

/-- One `poll_next` call on the filter stream: run the loop with
sufficient fuel. -/
def pollNext {I K : Type} [DecidableEq K] (keymaker : I → K) (fs : FilterState K)
    (ls : ListenerState I) (rejs : List K) : PollResult I K :=
  pollNextGo keymaker (ls.pending.length + fs.queue.length + 1) fs ls rejs

/-- The loop body of the poll protocol as the spec's §4.5 words describe
it, for comparison with `pollNextGo`: each iteration first checks the
closed-key queue and, if a key is ready, removes its entry and
immediately re-polls; only then is the listener polled and a ready
arrival's admission decided. -/
def specOrderPollNextGo {I K : Type} [DecidableEq K] (keymaker : I → K) :
    Nat → FilterState K → ListenerState I → List K → PollResult I K
  | 0, fs, ls, rejs => ⟨.pending, fs, ls, rejs⟩
  | fuel + 1, fs, ls, rejs =>
    match fs.queue with
    | kq :: qrest =>
        specOrderPollNextGo keymaker fuel
          { fs with key_counts := compact (aremove fs.key_counts kq), queue := qrest }
          ls rejs
    | [] =>
        match ls.pending with
        | item :: rest =>
            match handle_new_channel keymaker fs item with
            | .ok chan fs1 => ⟨.yielded chan, fs1, { ls with pending := rest }, rejs⟩
            | .rejected k =>
                specOrderPollNextGo keymaker fuel fs { ls with pending := rest } (rejs ++ [k])
            | .panicked => ⟨.panicked, fs, { ls with pending := rest }, rejs⟩
        | [] =>
            if ls.closed then ⟨.completed, fs, ls, rejs⟩
            else ⟨.pending, fs, ls, rejs⟩

/-- One poll in the spec's §4.5 processing order, with sufficient fuel. -/
def specOrderPollNext {I K : Type} [DecidableEq K] (keymaker : I → K) (fs : FilterState K)
    (ls : ListenerState I) (rejs : List K) : PollResult I K :=
  specOrderPollNextGo keymaker (ls.pending.length + fs.queue.length + 1) fs ls rejs

/-- One atomic event on the filter state: a successful admission, a
rejected admission attempt, a tracker drop, the processing of one
closed-key notification, or the teardown of the queue's consuming end. -/
inductive Step {K : Type} [DecidableEq K] : FilterState K → FilterState K → Prop where
  | newChan (key : K) (tid : Nat) {s s' : FilterState K} :
      increment_channels_for_key s key = .ok tid s' → Step s s'
  | rejectChan (key : K) {s : FilterState K} :
      increment_channels_for_key s key = .rejected key → Step s s
  | dropChan (tid : Nat) {s s' : FilterState K} :
      dropTracker s tid = some s' → Step s s'
  | cleanupStep {s s' : FilterState K} :
      poll_closed_channels s = some s' → Step s s'
  | closeRx {s : FilterState K} :
      Step s { s with queue := [], rxOpen := false }

/-- States reachable from a freshly constructed filter with the given
ceiling, by any sequence of admissions, drops and cleanup polls. -/
def Reachable {K : Type} [DecidableEq K] (channels_per_key : Nat) (s : FilterState K) : Prop :=
  Relation.ReflTransGen Step (initState K channels_per_key) s

/-- The embedding invariant tying the shared heap cells, the prototype
map, the trackers and the notification queue together. -/
structure Inv {K : Type} [DecidableEq K] (s : FilterState K) : Prop where
  tracker_cell : ∀ t ∈ s.trackers, t.alive = true →
    ∃ c, s.cells[t.cellId]? = some c ∧ c.key = t.keyVal
  cell_cnt : ∀ (cid : Nat) (c : Cell K), s.cells[cid]? = some c → c.cnt = aliveCount s cid
  cell_strong : ∀ (cid : Nat) (c : Cell K), s.cells[cid]? = some c → c.strong = c.cnt
  entry_cell : ∀ (k : K) (cid : Nat), alookup s.key_counts k = some cid →
    ∃ c, s.cells[cid]? = some c ∧ c.key = k
  alive_entry : ∀ t ∈ s.trackers, t.alive = true →
    alookup s.key_counts t.keyVal = some t.cellId
  nodup_keys : (s.key_counts.map Prod.fst).Nodup
  queue_nodup : s.queue.Nodup
  queue_dead : ∀ k ∈ s.queue, ∃ cid c, alookup s.key_counts k = some cid ∧
    s.cells[cid]? = some c ∧ c.strong = 0
  entry_live : s.rxOpen = true → ∀ (k : K) (cid : Nat), alookup s.key_counts k = some cid →
    0 < aliveCount s cid ∨ k ∈ s.queue
  cnt_le : 1 ≤ s.channels_per_key → ∀ (cid : Nat) (c : Cell K), s.cells[cid]? = some c →
    c.cnt ≤ s.channels_per_key
  queue_closed : s.rxOpen = false → s.queue = []

/-! ### Helper lemmas -/

theorem countP_set_add {α : Type} (p : α → Bool) (l : List α) (i : Nat) (a b : α)
    (h : l[i]? = some b) :
    (l.set i a).countP p + (if p b then 1 else 0) = l.countP p + (if p a then 1 else 0) := by
  obtain ⟨hlt, hget⟩ := List.getElem?_eq_some.mp h
  have hmem : b ∈ l := List.mem_iff_getElem?.mpr ⟨i, h⟩
  rw [List.countP_set p l i a hlt, hget]
  by_cases hpb : p b = true
  · have hpos : 0 < l.countP p := List.countP_pos_iff.mpr ⟨b, hmem, hpb⟩
    by_cases hpa : p a = true <;> simp [hpb, hpa] <;> omega
  · by_cases hpa : p a = true <;> simp [hpb, hpa] <;> omega

theorem alookup_eq_none_iff {K : Type} [DecidableEq K] (m : List (K × Nat)) (k : K) :
    alookup m k = none ↔ k ∉ m.map Prod.fst := by
  induction m with
  | nil => simp [alookup]
  | cons p rest ih =>
      obtain ⟨k', v⟩ := p
      by_cases h : k = k' <;> simp [alookup, h, ih]

theorem alookup_mem {K : Type} [DecidableEq K] {m : List (K × Nat)} {k : K} {cid : Nat}
    (h : alookup m k = some cid) : (k, cid) ∈ m := by
  induction m with
  | nil => simp [alookup] at h
  | cons p rest ih =>
      obtain ⟨k', v⟩ := p
      by_cases hk : k = k'
      · simp [alookup, hk] at h
        simp [hk, h]
      · simp [alookup, hk] at h
        exact List.mem_cons_of_mem _ (ih h)

theorem aremove_sublist {K : Type} [DecidableEq K] (m : List (K × Nat)) (k : K) :
    (aremove m k).Sublist m := by
  induction m with
  | nil => simp [aremove]
  | cons p rest ih =>
      obtain ⟨k', v⟩ := p
      by_cases h : k = k'
      · simpa [aremove, h] using List.sublist_cons_self _ _
      · simpa [aremove, h] using ih.cons₂ (k', v)

theorem alookup_aremove_self {K : Type} [DecidableEq K] {m : List (K × Nat)} {k : K}
    (nodup : (m.map Prod.fst).Nodup) : alookup (aremove m k) k = none := by
  induction m with
  | nil => simp [aremove, alookup]
  | cons p rest ih =>
      obtain ⟨k', v⟩ := p
      simp only [List.map_cons, List.nodup_cons] at nodup
      by_cases h : k = k'
      · subst h
        simp only [aremove, if_pos rfl]
        exact (alookup_eq_none_iff rest k).mpr nodup.1
      · simp [aremove, alookup, h, ih nodup.2]

theorem alookup_aremove_ne {K : Type} [DecidableEq K] (m : List (K × Nat)) {k k' : K}
    (h : k' ≠ k) : alookup (aremove m k) k' = alookup m k' := by
  induction m with
  | nil => simp [aremove]
  | cons p rest ih =>
      obtain ⟨k'', v⟩ := p
      by_cases hk : k = k''
      · subst hk
        simp [aremove, alookup, h]
      · by_cases hk' : k' = k'' <;> simp [aremove, alookup, hk, hk', ih]

theorem alookup_aremove_none {K : Type} [DecidableEq K] {m : List (K × Nat)} {k k' : K}
    (h : alookup m k' = none) : alookup (aremove m k) k' = none := by
  induction m with
  | nil => simp [aremove, alookup]
  | cons p rest ih =>
      obtain ⟨k'', v⟩ := p
      by_cases hk' : k' = k''
      · simp [alookup, hk'] at h
      · simp only [alookup, if_neg hk'] at h
        by_cases hk : k = k'' <;> simp [aremove, alookup, hk, hk', ih h, h]

theorem mem_of_getElem?_eq {α : Type} {l : List α} {i : Nat} {a : α}
    (h : l[i]? = some a) : a ∈ l :=
  List.mem_iff_getElem?.mpr ⟨i, h⟩

theorem lt_of_getElem?_eq {α : Type} {l : List α} {i : Nat} {a : α}
    (h : l[i]? = some a) : i < l.length :=
  (List.getElem?_eq_some.mp h).1

/-! ### Inversion lemmas for the operations -/

theorem increment_ok_inv {K : Type} [DecidableEq K] {s : FilterState K} {key : K}
    {tid : Nat} {s' : FilterState K}
    (h : increment_channels_for_key s key = .ok tid s') :
    tid = s.trackers.length ∧
    ((alookup s.key_counts key = none ∧
      s' = { s with
        cells := s.cells ++ [⟨key, 1, 1⟩]
        key_counts := (key, s.cells.length) :: s.key_counts
        trackers := s.trackers ++ [⟨key, s.cells.length, true⟩] }) ∨
     (∃ cid c, alookup s.key_counts key = some cid ∧ s.cells[cid]? = some c ∧
      c.cnt < s.channels_per_key ∧ c.strong ≠ 0 ∧
      s' = { s with
        cells := s.cells.set cid ⟨c.key, c.strong + 1, c.cnt + 1⟩
        trackers := s.trackers ++ [⟨c.key, cid, true⟩] })) := by
  unfold increment_channels_for_key at h
  split at h
  · next hl =>
      injection h with h1 h2
      exact ⟨h1.symm, Or.inl ⟨hl, h2.symm⟩⟩
  · next cid hl =>
      split at h
      · exact absurd h (by simp)
      · next c hc =>
          split at h
          · exact absurd h (by simp)
          · next hcnt =>
              split at h
              · exact absurd h (by simp)
              · next hstr =>
                  injection h with h1 h2
                  exact ⟨h1.symm, Or.inr ⟨cid, c, hl, hc, by omega, hstr, h2.symm⟩⟩

theorem increment_rejected_inv {K : Type} [DecidableEq K] {s : FilterState K} {key : K}
    {k' : K} (h : increment_channels_for_key s key = .rejected k') :
    k' = key ∧ ∃ cid c, alookup s.key_counts key = some cid ∧ s.cells[cid]? = some c ∧
      s.channels_per_key ≤ c.cnt := by
  unfold increment_channels_for_key at h
  split at h
  · exact absurd h (by simp)
  · next cid hl =>
      split at h
      · exact absurd h (by simp)
      · next c hc =>
          split at h
          · next hcnt =>
              injection h with h1
              exact ⟨h1.symm, cid, c, hl, hc, hcnt⟩
          · split at h
            · exact absurd h (by simp)
            · exact absurd h (by simp)

theorem dropTracker_some_inv {K : Type} [DecidableEq K] {s : FilterState K} {tid : Nat}
    {s' : FilterState K} (h : dropTracker s tid = some s') :
    ∃ t c, s.trackers[tid]? = some t ∧ t.alive = true ∧ s.cells[t.cellId]? = some c ∧
      ((c.cnt ≤ 1 ∧ c.strong = 1 ∧
        s' = unbounded_send
          { s with
            cells := s.cells.set t.cellId ⟨c.key, 0, c.cnt - 1⟩
            trackers := s.trackers.set tid { t with alive := false } } c.key) ∨
       (1 < c.cnt ∧
        s' = { s with
          cells := s.cells.set t.cellId ⟨c.key, c.strong - 1, c.cnt - 1⟩
          trackers := s.trackers.set tid { t with alive := false } })) := by
  unfold dropTracker at h
  split at h
  · exact absurd h (by simp)
  · next t ht =>
      split at h
      · next halive =>
          split at h
          · exact absurd h (by simp)
          · next c hc =>
              split at h
              · next hcnt =>
                  split at h
                  · next hstr =>
                      injection h with h1
                      exact ⟨t, c, ht, halive, hc, Or.inl ⟨hcnt, hstr, h1.symm⟩⟩
                  · exact absurd h (by simp)
              · next hcnt =>
                  injection h with h1
                  exact ⟨t, c, ht, halive, hc, Or.inr ⟨by omega, h1.symm⟩⟩
      · exact absurd h (by simp)

theorem poll_closed_some_inv {K : Type} [DecidableEq K] {s s' : FilterState K}
    (h : poll_closed_channels s = some s') :
    ∃ k rest, s.queue = k :: rest ∧
      s' = { s with key_counts := compact (aremove s.key_counts k), queue := rest } := by
  unfold poll_closed_channels at h
  split at h
  · exact absurd h (by simp)
  · next k rest hq =>
      injection h with h1
      exact ⟨k, rest, hq, h1.symm⟩

/-! ### The invariant is inductive -/

theorem inv_init (K : Type) [DecidableEq K] (channels_per_key : Nat) :
    Inv (initState K channels_per_key) := by
  constructor <;> simp [initState, alookup, aliveCount]

theorem inv_newChan {K : Type} [DecidableEq K] {s : FilterState K} {key : K} {tid : Nat}
    {s' : FilterState K} (inv : Inv s)
    (h : increment_channels_for_key s key = .ok tid s') : Inv s' := by
  obtain ⟨-, hcase⟩ := increment_ok_inv h
  rcases hcase with ⟨hvac, rfl⟩ | ⟨cid, c, hl, hc, hcnt, hstr, rfl⟩
  · -- Vacant entry: fresh cell, fresh tracker, new map entry.
    have hzero : s.trackers.countP
        (fun t => t.alive && decide (t.cellId = s.cells.length)) = 0 := by
      rw [List.countP_eq_zero]
      intro t ht
      by_cases halive : t.alive = true
      · obtain ⟨c0, hc0, -⟩ := inv.tracker_cell t ht halive
        have := lt_of_getElem?_eq hc0
        simp only [halive, Bool.true_and, decide_eq_true_eq]
        omega
      · simp only [Bool.not_eq_true] at halive
        simp [halive]
    constructor
    case tracker_cell =>
      intro t ht halive
      dsimp only at ht ⊢
      rw [List.mem_append] at ht
      rcases ht with ht | ht
      · obtain ⟨c0, hc0, hk0⟩ := inv.tracker_cell t ht halive
        refine ⟨c0, ?_, hk0⟩
        rw [List.getElem?_append, if_pos (lt_of_getElem?_eq hc0)]
        exact hc0
      · rw [List.mem_singleton] at ht
        subst ht
        exact ⟨⟨key, 1, 1⟩, List.getElem?_concat_length _ _, rfl⟩
    case cell_cnt =>
      intro cid' c' hc'
      dsimp only at hc' ⊢
      rw [List.getElem?_append] at hc'
      by_cases hlt : cid' < s.cells.length
      · rw [if_pos hlt] at hc'
        have hold := inv.cell_cnt cid' c' hc'
        have hne : ¬ s.cells.length = cid' := by omega
        simp only [aliveCount] at hold ⊢
        rw [List.countP_append]
        simp [hne, hold]
      · rw [if_neg hlt] at hc'
        rcases hd : cid' - s.cells.length with _ | d
        · rw [hd] at hc'
          simp only [List.getElem?_cons_zero, Option.some.injEq] at hc'
          subst hc'
          have hcid : cid' = s.cells.length := by omega
          subst hcid
          simp only [aliveCount]
          rw [List.countP_append, hzero]
          simp
        · rw [hd] at hc'
          simp at hc'
    case cell_strong =>
      intro cid' c' hc'
      dsimp only at hc'
      rw [List.getElem?_append] at hc'
      by_cases hlt : cid' < s.cells.length
      · rw [if_pos hlt] at hc'
        exact inv.cell_strong cid' c' hc'
      · rw [if_neg hlt] at hc'
        rcases hd : cid' - s.cells.length with _ | d
        · rw [hd] at hc'
          simp only [List.getElem?_cons_zero, Option.some.injEq] at hc'
          subst hc'
          rfl
        · rw [hd] at hc'
          simp at hc'
    case entry_cell =>
      intro k cid' hl'
      dsimp only at hl' ⊢
      by_cases hk : k = key
      · subst hk
        simp [alookup] at hl'
        subst hl'
        exact ⟨⟨k, 1, 1⟩, List.getElem?_concat_length _ _, rfl⟩
      · simp only [alookup, if_neg hk] at hl'
        obtain ⟨c0, hc0, hk0⟩ := inv.entry_cell k cid' hl'
        refine ⟨c0, ?_, hk0⟩
        rw [List.getElem?_append, if_pos (lt_of_getElem?_eq hc0)]
        exact hc0
    case alive_entry =>
      intro t ht halive
      dsimp only at ht ⊢
      rw [List.mem_append] at ht
      rcases ht with ht | ht
      · have he := inv.alive_entry t ht halive
        have hne : ¬ t.keyVal = key := by
          intro hcon
          rw [hcon, hvac] at he
          exact absurd he (by simp)
        simp only [alookup, if_neg hne]
        exact he
      · rw [List.mem_singleton] at ht
        subst ht
        simp [alookup]
    case nodup_keys =>
      dsimp only
      rw [List.map_cons, List.nodup_cons]
      exact ⟨(alookup_eq_none_iff _ _).mp hvac, inv.nodup_keys⟩
    case queue_nodup => exact inv.queue_nodup
    case queue_dead =>
      intro k hk
      obtain ⟨cid0, c0, hl0, hc0, hs0⟩ := inv.queue_dead k hk
      have hne : ¬ k = key := by
        intro hcon
        rw [hcon, hvac] at hl0
        exact absurd hl0 (by simp)
      refine ⟨cid0, c0, ?_, ?_, hs0⟩
      · dsimp only
        simp only [alookup, if_neg hne]
        exact hl0
      · dsimp only
        rw [List.getElem?_append, if_pos (lt_of_getElem?_eq hc0)]
        exact hc0
    case entry_live =>
      intro hrx k cid' hl'
      dsimp only at hl' ⊢
      by_cases hk : k = key
      · subst hk
        simp [alookup] at hl'
        subst hl'
        left
        simp only [aliveCount]
        rw [List.countP_append]
        simp
      · simp only [alookup, if_neg hk] at hl'
        rcases inv.entry_live hrx k cid' hl' with hpos | hq
        · left
          obtain ⟨c0, hc0, -⟩ := inv.entry_cell k cid' hl'
          have hlt := lt_of_getElem?_eq hc0
          have hne : ¬ s.cells.length = cid' := by omega
          simp only [aliveCount] at hpos ⊢
          rw [List.countP_append]
          have hsing : List.countP (fun t => t.alive && decide (t.cellId = cid'))
              [(⟨key, s.cells.length, true⟩ : TrackerObj K)] = 0 := by
            simp [hne]
          rw [hsing]
          omega
        · right
          exact hq
    case cnt_le =>
      intro hcpk cid' c' hc'
      dsimp only at hc' ⊢
      rw [List.getElem?_append] at hc'
      by_cases hlt : cid' < s.cells.length
      · rw [if_pos hlt] at hc'
        exact inv.cnt_le hcpk cid' c' hc'
      · rw [if_neg hlt] at hc'
        rcases hd : cid' - s.cells.length with _ | d
        · rw [hd] at hc'
          simp only [List.getElem?_cons_zero, Option.some.injEq] at hc'
          subst hc'
          exact hcpk
        · rw [hd] at hc'
          simp at hc'
    case queue_closed => exact inv.queue_closed
  · -- Occupied entry with a live cell: upgrade the shared references.
    have hlen := lt_of_getElem?_eq hc
    obtain ⟨c2, hc2, hk2⟩ := inv.entry_cell key cid hl
    rw [hc] at hc2
    injection hc2 with hc2
    subst hc2
    have hccnt := inv.cell_cnt cid c hc
    have hcstr := inv.cell_strong cid c hc
    constructor
    case tracker_cell =>
      intro t ht halive
      dsimp only at ht ⊢
      rw [List.mem_append] at ht
      rcases ht with ht | ht
      · obtain ⟨c0, hc0, hk0⟩ := inv.tracker_cell t ht halive
        by_cases hcid : t.cellId = cid
        · rw [hcid] at hc0 ⊢
          rw [hc] at hc0
          injection hc0 with hc0
          subst hc0
          exact ⟨⟨c.key, c.strong + 1, c.cnt + 1⟩,
            List.getElem?_set_self hlen, hk0⟩
        · refine ⟨c0, ?_, hk0⟩
          rw [List.getElem?_set_ne (fun hcon => hcid hcon.symm)]
          exact hc0
      · rw [List.mem_singleton] at ht
        subst ht
        exact ⟨⟨c.key, c.strong + 1, c.cnt + 1⟩, List.getElem?_set_self hlen, rfl⟩
    case cell_cnt =>
      intro cid' c' hc'
      dsimp only at hc' ⊢
      by_cases hcid : cid = cid'
      · subst hcid
        rw [List.getElem?_set_self hlen] at hc'
        injection hc' with hc'
        subst hc'
        simp only [aliveCount] at hccnt ⊢
        rw [List.countP_append]
        simp [hccnt]
      · rw [List.getElem?_set_ne hcid] at hc'
        have hold := inv.cell_cnt cid' c' hc'
        simp only [aliveCount] at hold ⊢
        rw [List.countP_append]
        simp [hcid, hold]
    case cell_strong =>
      intro cid' c' hc'
      dsimp only at hc'
      by_cases hcid : cid = cid'
      · subst hcid
        rw [List.getElem?_set_self hlen] at hc'
        injection hc' with hc'
        subst hc'
        simp [hcstr]
      · rw [List.getElem?_set_ne hcid] at hc'
        exact inv.cell_strong cid' c' hc'
    case entry_cell =>
      intro k cid' hl'
      dsimp only at hl' ⊢
      obtain ⟨c0, hc0, hk0⟩ := inv.entry_cell k cid' hl'
      by_cases hcid : cid = cid'
      · subst hcid
        rw [hc] at hc0
        injection hc0 with hc0
        subst hc0
        exact ⟨⟨c.key, c.strong + 1, c.cnt + 1⟩, List.getElem?_set_self hlen, hk0⟩
      · refine ⟨c0, ?_, hk0⟩
        rw [List.getElem?_set_ne hcid]
        exact hc0
    case alive_entry =>
      intro t ht halive
      dsimp only at ht ⊢
      rw [List.mem_append] at ht
      rcases ht with ht | ht
      · exact inv.alive_entry t ht halive
      · rw [List.mem_singleton] at ht
        subst ht
        dsimp only
        rw [hk2]
        exact hl
    case nodup_keys => exact inv.nodup_keys
    case queue_nodup => exact inv.queue_nodup
    case queue_dead =>
      intro k hk
      obtain ⟨cid0, c0, hl0, hc0, hs0⟩ := inv.queue_dead k hk
      by_cases hcid : cid0 = cid
      · subst hcid
        rw [hc] at hc0
        injection hc0 with hc0
        subst hc0
        exact absurd hs0 hstr
      · refine ⟨cid0, c0, hl0, ?_, hs0⟩
        dsimp only
        rw [List.getElem?_set_ne (fun hcon => hcid hcon.symm)]
        exact hc0
    case entry_live =>
      intro hrx k cid' hl'
      dsimp only at hl' ⊢
      by_cases hcid : cid = cid'
      · subst hcid
        left
        simp only [aliveCount]
        rw [List.countP_append]
        simp
      · rcases inv.entry_live hrx k cid' hl' with hpos | hq
        · left
          simp only [aliveCount] at hpos ⊢
          rw [List.countP_append]
          have hsing : List.countP (fun t => t.alive && decide (t.cellId = cid'))
              [(⟨c.key, cid, true⟩ : TrackerObj K)] = 0 := by
            simp [hcid]
          rw [hsing]
          omega
        · right
          exact hq
    case cnt_le =>
      intro hcpk cid' c' hc'
      dsimp only at hc' ⊢
      by_cases hcid : cid = cid'
      · subst hcid
        rw [List.getElem?_set_self hlen] at hc'
        injection hc' with hc'
        subst hc'
        dsimp only
        omega
      · rw [List.getElem?_set_ne hcid] at hc'
        exact inv.cnt_le hcpk cid' c' hc'
    case queue_closed => exact inv.queue_closed

theorem inv_dropChan {K : Type} [DecidableEq K] {s : FilterState K} {tid : Nat}
    {s' : FilterState K} (inv : Inv s) (h : dropTracker s tid = some s') : Inv s' := by
  obtain ⟨t, c, ht, halive, hc, hcase⟩ := dropTracker_some_inv h
  have htmem : t ∈ s.trackers := mem_of_getElem?_eq ht
  have hclen := lt_of_getElem?_eq hc
  have hccnt := inv.cell_cnt t.cellId c hc
  have hcstr := inv.cell_strong t.cellId c hc
  have hkey : c.key = t.keyVal := by
    obtain ⟨c0, hc0, hk0⟩ := inv.tracker_cell t htmem halive
    rw [hc] at hc0
    injection hc0 with hc0
    subst hc0
    exact hk0
  have hpos : 0 < aliveCount s t.cellId := by
    rw [aliveCount]
    exact List.countP_pos_iff.mpr ⟨t, htmem, by simp [halive]⟩
  have hset : ∀ cid' : Nat,
      (s.trackers.set tid { t with alive := false }).countP
          (fun x => x.alive && decide (x.cellId = cid')) +
        (if t.cellId = cid' then 1 else 0) =
      s.trackers.countP (fun x => x.alive && decide (x.cellId = cid')) := by
    intro cid'
    have hca := countP_set_add (fun x => x.alive && decide (x.cellId = cid'))
      s.trackers tid ({ t with alive := false }) t ht
    have hpd : ¬ ((fun x : TrackerObj K => x.alive && decide (x.cellId = cid'))
        ({ t with alive := false }) = true) := by simp
    rw [if_neg hpd] at hca
    by_cases hcid : t.cellId = cid'
    · have hpt : ((fun x : TrackerObj K => x.alive && decide (x.cellId = cid')) t = true) := by
        simp [halive, hcid]
      rw [if_pos hpt] at hca
      rw [if_pos hcid]
      omega
    · have hpt : ¬ ((fun x : TrackerObj K => x.alive && decide (x.cellId = cid')) t = true) := by
        simp [halive, hcid]
      rw [if_neg hpt] at hca
      rw [if_neg hcid]
      omega
  -- Facts shared by both drop modes, about the updated cells and trackers.
  have Htc : ∀ newc : Cell K, newc.key = c.key →
      ∀ t' ∈ s.trackers.set tid { t with alive := false }, t'.alive = true →
      ∃ c', (s.cells.set t.cellId newc)[t'.cellId]? = some c' ∧ c'.key = t'.keyVal := by
    intro newc hnewkey t' ht' halive'
    rcases List.mem_or_eq_of_mem_set ht' with ht' | rfl
    · obtain ⟨c0, hc0, hk0⟩ := inv.tracker_cell t' ht' halive'
      by_cases hcid : t.cellId = t'.cellId
      · rw [← hcid] at hc0 ⊢
        rw [hc] at hc0
        injection hc0 with hc0
        subst hc0
        refine ⟨newc, List.getElem?_set_self hclen, ?_⟩
        rw [hnewkey, hk0]
      · refine ⟨c0, ?_, hk0⟩
        rw [List.getElem?_set_ne hcid]
        exact hc0
    · simp at halive'
  have Hec : ∀ newc : Cell K, newc.key = c.key →
      ∀ (k : K) (cid' : Nat), alookup s.key_counts k = some cid' →
      ∃ c', (s.cells.set t.cellId newc)[cid']? = some c' ∧ c'.key = k := by
    intro newc hnewkey k cid' hl'
    obtain ⟨c0, hc0, hk0⟩ := inv.entry_cell k cid' hl'
    by_cases hcid : t.cellId = cid'
    · subst hcid
      rw [hc] at hc0
      injection hc0 with hc0
      subst hc0
      refine ⟨newc, List.getElem?_set_self hclen, ?_⟩
      rw [hnewkey, hk0]
    · refine ⟨c0, ?_, hk0⟩
      rw [List.getElem?_set_ne hcid]
      exact hc0
  have Hae : ∀ t' ∈ s.trackers.set tid { t with alive := false }, t'.alive = true →
      alookup s.key_counts t'.keyVal = some t'.cellId := by
    intro t' ht' halive'
    rcases List.mem_or_eq_of_mem_set ht' with ht' | rfl
    · exact inv.alive_entry t' ht' halive'
    · simp at halive'
  have hlk : alookup s.key_counts c.key = some t.cellId := by
    rw [hkey]
    exact inv.alive_entry t htmem halive
  rcases hcase with ⟨hcnt1, hstr1, rfl⟩ | ⟨hcnt2, rfl⟩
  · -- Last tracker: counter value 1, key reclaimed, notification sent.
    have hcnt_eq : c.cnt = 1 := by
      rw [hccnt] at hcnt1 ⊢
      omega
    have hdead_notin : c.key ∉ s.queue := by
      intro hmem
      obtain ⟨cidq, cq, hlq, hcq, hsq⟩ := inv.queue_dead c.key hmem
      rw [hlk] at hlq
      injection hlq with hlq
      rw [← hlq] at hcq
      rw [hc] at hcq
      injection hcq with hcq
      rw [← hcq] at hsq
      omega
    rw [unbounded_send]
    split
    · next hrx =>
        have hrx' : s.rxOpen = true := hrx
        constructor
        case tracker_cell => exact Htc _ rfl
        case cell_cnt =>
          intro cid' c' hc'
          dsimp only at hc' ⊢
          have hs := hset cid'
          by_cases hcid : t.cellId = cid'
          · subst hcid
            rw [List.getElem?_set_self hclen] at hc'
            injection hc' with hc'
            subst hc'
            rw [if_pos rfl] at hs
            rw [aliveCount] at hccnt ⊢
            dsimp only
            omega
          · rw [List.getElem?_set_ne hcid] at hc'
            have hold := inv.cell_cnt cid' c' hc'
            rw [if_neg hcid] at hs
            rw [aliveCount] at hold ⊢
            dsimp only
            omega
        case cell_strong =>
          intro cid' c' hc'
          dsimp only at hc'
          by_cases hcid : t.cellId = cid'
          · subst hcid
            rw [List.getElem?_set_self hclen] at hc'
            injection hc' with hc'
            subst hc'
            dsimp only
            omega
          · rw [List.getElem?_set_ne hcid] at hc'
            exact inv.cell_strong cid' c' hc'
        case entry_cell => exact Hec _ rfl
        case alive_entry => exact Hae
        case nodup_keys => exact inv.nodup_keys
        case queue_nodup =>
          dsimp only
          rw [List.nodup_append]
          exact ⟨inv.queue_nodup, List.nodup_singleton _,
            by simpa [List.disjoint_singleton] using hdead_notin⟩
        case queue_dead =>
          intro k hk
          dsimp only at hk ⊢
          rw [List.mem_append, List.mem_singleton] at hk
          rcases hk with hk | rfl
          · obtain ⟨cidq, cq, hlq, hcq, hsq⟩ := inv.queue_dead k hk
            by_cases hcid : t.cellId = cidq
            · subst hcid
              rw [hc] at hcq
              injection hcq with hcq
              subst hcq
              omega
            · refine ⟨cidq, cq, hlq, ?_, hsq⟩
              rw [List.getElem?_set_ne hcid]
              exact hcq
          · exact ⟨t.cellId, ⟨c.key, 0, c.cnt - 1⟩, hlk,
              List.getElem?_set_self hclen, rfl⟩
        case entry_live =>
          intro hrx2 k cid' hl'
          dsimp only at hl' ⊢
          by_cases hcid : t.cellId = cid'
          · right
            obtain ⟨c0, hc0, hk0⟩ := inv.entry_cell k cid' hl'
            rw [← hcid] at hc0
            rw [hc] at hc0
            injection hc0 with hc0
            subst hc0
            rw [List.mem_append, List.mem_singleton]
            right
            rw [← hk0]
          · rcases inv.entry_live hrx' k cid' hl' with hpos' | hq
            · left
              have hs := hset cid'
              rw [if_neg hcid] at hs
              rw [aliveCount] at hpos' ⊢
              dsimp only
              omega
            · right
              rw [List.mem_append]
              exact Or.inl hq
        case cnt_le =>
          intro hcpk cid' c' hc'
          dsimp only at hc' ⊢
          have hold := inv.cnt_le hcpk t.cellId c hc
          by_cases hcid : t.cellId = cid'
          · subst hcid
            rw [List.getElem?_set_self hclen] at hc'
            injection hc' with hc'
            subst hc'
            dsimp only
            omega
          · rw [List.getElem?_set_ne hcid] at hc'
            exact inv.cnt_le hcpk cid' c' hc'
        case queue_closed =>
          intro hcon
          dsimp only at hcon
          rw [hrx'] at hcon
          exact absurd hcon (by simp)
    · next hrx =>
        have hrx' : s.rxOpen = false := by
          dsimp only at hrx
          simpa using hrx
        have hqe : s.queue = [] := inv.queue_closed hrx'
        constructor
        case tracker_cell => exact Htc _ rfl
        case cell_cnt =>
          intro cid' c' hc'
          dsimp only at hc' ⊢
          have hs := hset cid'
          by_cases hcid : t.cellId = cid'
          · subst hcid
            rw [List.getElem?_set_self hclen] at hc'
            injection hc' with hc'
            subst hc'
            rw [if_pos rfl] at hs
            rw [aliveCount] at hccnt ⊢
            dsimp only
            omega
          · rw [List.getElem?_set_ne hcid] at hc'
            have hold := inv.cell_cnt cid' c' hc'
            rw [if_neg hcid] at hs
            rw [aliveCount] at hold ⊢
            dsimp only
            omega
        case cell_strong =>
          intro cid' c' hc'
          dsimp only at hc'
          by_cases hcid : t.cellId = cid'
          · subst hcid
            rw [List.getElem?_set_self hclen] at hc'
            injection hc' with hc'
            subst hc'
            dsimp only
            omega
          · rw [List.getElem?_set_ne hcid] at hc'
            exact inv.cell_strong cid' c' hc'
        case entry_cell => exact Hec _ rfl
        case alive_entry => exact Hae
        case nodup_keys => exact inv.nodup_keys
        case queue_nodup =>
          dsimp only
          rw [hqe]
          exact List.nodup_nil
        case queue_dead =>
          intro k hk
          dsimp only at hk
          rw [hqe] at hk
          simp at hk
        case entry_live =>
          intro hrx2 k cid' hl'
          dsimp only at hrx2
          rw [hrx'] at hrx2
          exact absurd hrx2 (by simp)
        case cnt_le =>
          intro hcpk cid' c' hc'
          dsimp only at hc' ⊢
          by_cases hcid : t.cellId = cid'
          · subst hcid
            rw [List.getElem?_set_self hclen] at hc'
            injection hc' with hc'
            subst hc'
            dsimp only
            have hold := inv.cnt_le hcpk t.cellId c hc
            omega
          · rw [List.getElem?_set_ne hcid] at hc'
            exact inv.cnt_le hcpk cid' c' hc'
        case queue_closed =>
          intro hcon
          exact hqe
  · -- Not the last tracker: both shared handles are simply released.
    have hstr2 : 1 < c.strong := by omega
    constructor
    case tracker_cell => exact Htc _ rfl
    case cell_cnt =>
      intro cid' c' hc'
      dsimp only at hc' ⊢
      have hs := hset cid'
      by_cases hcid : t.cellId = cid'
      · subst hcid
        rw [List.getElem?_set_self hclen] at hc'
        injection hc' with hc'
        subst hc'
        rw [if_pos rfl] at hs
        rw [aliveCount] at hccnt ⊢
        dsimp only
        omega
      · rw [List.getElem?_set_ne hcid] at hc'
        have hold := inv.cell_cnt cid' c' hc'
        rw [if_neg hcid] at hs
        rw [aliveCount] at hold ⊢
        dsimp only
        omega
    case cell_strong =>
      intro cid' c' hc'
      dsimp only at hc'
      by_cases hcid : t.cellId = cid'
      · subst hcid
        rw [List.getElem?_set_self hclen] at hc'
        injection hc' with hc'
        subst hc'
        dsimp only
        omega
      · rw [List.getElem?_set_ne hcid] at hc'
        exact inv.cell_strong cid' c' hc'
    case entry_cell => exact Hec _ rfl
    case alive_entry => exact Hae
    case nodup_keys => exact inv.nodup_keys
    case queue_nodup => exact inv.queue_nodup
    case queue_dead =>
      intro k hk
      obtain ⟨cidq, cq, hlq, hcq, hsq⟩ := inv.queue_dead k hk
      by_cases hcid : t.cellId = cidq
      · subst hcid
        rw [hc] at hcq
        injection hcq with hcq
        subst hcq
        omega
      · refine ⟨cidq, cq, hlq, ?_, hsq⟩
        dsimp only
        rw [List.getElem?_set_ne hcid]
        exact hcq
    case entry_live =>
      intro hrx k cid' hl'
      dsimp only at hrx hl' ⊢
      by_cases hcid : t.cellId = cid'
      · left
        have hs := hset cid'
        rw [if_pos hcid] at hs
        have hc2 : c.cnt = s.trackers.countP
            (fun x => x.alive && decide (x.cellId = cid')) := by
          rw [hccnt, aliveCount, hcid]
        rw [aliveCount]
        dsimp only
        omega
      · rcases inv.entry_live hrx k cid' hl' with hpos' | hq
        · left
          have hs := hset cid'
          rw [if_neg hcid] at hs
          rw [aliveCount] at hpos' ⊢
          dsimp only
          omega
        · right
          exact hq
    case cnt_le =>
      intro hcpk cid' c' hc'
      dsimp only at hc' ⊢
      by_cases hcid : t.cellId = cid'
      · subst hcid
        rw [List.getElem?_set_self hclen] at hc'
        injection hc' with hc'
        subst hc'
        dsimp only
        have hold := inv.cnt_le hcpk t.cellId c hc
        omega
      · rw [List.getElem?_set_ne hcid] at hc'
        exact inv.cnt_le hcpk cid' c' hc'
    case queue_closed => exact inv.queue_closed

theorem inv_queue_no_alive {K : Type} [DecidableEq K] {s : FilterState K} (inv : Inv s)
    {k : K} (hk : k ∈ s.queue) {t : TrackerObj K} (ht : t ∈ s.trackers)
    (halive : t.alive = true) : t.keyVal ≠ k := by
  intro hcon
  obtain ⟨cidq, cq, hlq, hcq, hsq⟩ := inv.queue_dead k hk
  have he := inv.alive_entry t ht halive
  rw [hcon, hlq] at he
  injection he with he
  have hcnt := inv.cell_cnt cidq cq hcq
  have hstr := inv.cell_strong cidq cq hcq
  have hpos : 0 < aliveCount s cidq := by
    rw [aliveCount]
    refine List.countP_pos_iff.mpr ⟨t, ht, ?_⟩
    simp only [halive, Bool.true_and, decide_eq_true_eq]
    exact he.symm
  omega

theorem inv_cleanup {K : Type} [DecidableEq K] {s s' : FilterState K} (inv : Inv s)
    (h : poll_closed_channels s = some s') : Inv s' := by
  obtain ⟨k, rest, hq, rfl⟩ := poll_closed_some_inv h
  have hknotin : k ∉ rest := by
    have hnd := inv.queue_nodup
    rw [hq, List.nodup_cons] at hnd
    exact hnd.1
  have hkq : k ∈ s.queue := by
    rw [hq]
    exact List.mem_cons_self _ _
  constructor
  case tracker_cell => exact inv.tracker_cell
  case cell_cnt => exact inv.cell_cnt
  case cell_strong => exact inv.cell_strong
  case entry_cell =>
    intro k' cid hl'
    dsimp only [compact] at hl'
    by_cases hk' : k' = k
    · subst hk'
      rw [alookup_aremove_self inv.nodup_keys] at hl'
      exact absurd hl' (by simp)
    · rw [alookup_aremove_ne _ hk'] at hl'
      exact inv.entry_cell k' cid hl'
  case alive_entry =>
    intro t ht ha
    dsimp only [compact]
    have hne := inv_queue_no_alive inv hkq ht ha
    rw [alookup_aremove_ne _ hne]
    exact inv.alive_entry t ht ha
  case nodup_keys =>
    dsimp only [compact]
    exact (((aremove_sublist s.key_counts k).map Prod.fst).nodup) inv.nodup_keys
  case queue_nodup =>
    have hnd := inv.queue_nodup
    rw [hq, List.nodup_cons] at hnd
    exact hnd.2
  case queue_dead =>
    intro k' hk'
    dsimp only [compact]
    have hk'q : k' ∈ s.queue := by
      rw [hq]
      exact List.mem_cons_of_mem _ hk'
    obtain ⟨cid, c, hl, hcx, hs0⟩ := inv.queue_dead k' hk'q
    have hne : k' ≠ k := fun hcon => hknotin (hcon ▸ hk')
    exact ⟨cid, c, by rw [alookup_aremove_ne _ hne]; exact hl, hcx, hs0⟩
  case entry_live =>
    intro hrx k' cid hl'
    dsimp only [compact] at hl'
    by_cases hk' : k' = k
    · subst hk'
      rw [alookup_aremove_self inv.nodup_keys] at hl'
      exact absurd hl' (by simp)
    · rw [alookup_aremove_ne _ hk'] at hl'
      rcases inv.entry_live hrx k' cid hl' with hpos | hqm
      · left
        exact hpos
      · right
        rw [hq] at hqm
        rcases List.mem_cons.mp hqm with heq | hm
        · exact absurd heq hk'
        · exact hm
  case cnt_le => exact inv.cnt_le
  case queue_closed =>
    intro hrx
    have hqe := inv.queue_closed hrx
    rw [hq] at hqe
    exact absurd hqe (by simp)

theorem inv_closeRx {K : Type} [DecidableEq K] {s : FilterState K} (inv : Inv s) :
    Inv { s with queue := ([] : List K), rxOpen := false } := by
  constructor
  case tracker_cell => exact inv.tracker_cell
  case cell_cnt => exact inv.cell_cnt
  case cell_strong => exact inv.cell_strong
  case entry_cell => exact inv.entry_cell
  case alive_entry => exact inv.alive_entry
  case nodup_keys => exact inv.nodup_keys
  case queue_nodup => exact List.nodup_nil
  case queue_dead =>
    intro k hk
    simp at hk
  case entry_live =>
    intro hrx
    exact absurd hrx (by simp)
  case cnt_le => exact inv.cnt_le
  case queue_closed =>
    intro hrx
    rfl

theorem inv_step {K : Type} [DecidableEq K] {s s' : FilterState K} (inv : Inv s)
    (h : Step s s') : Inv s' := by
  cases h with
  | newChan key tid h => exact inv_newChan inv h
  | rejectChan key h => exact inv
  | dropChan tid h => exact inv_dropChan inv h
  | cleanupStep h => exact inv_cleanup inv h
  | closeRx => exact inv_closeRx inv

theorem reachable_inv {K : Type} [DecidableEq K] {cpk : Nat} {s : FilterState K}
    (h : Reachable cpk s) : Inv s := by
  unfold Reachable at h
  induction h with
  | refl => exact inv_init K cpk
  | tail hr hstep ih => exact inv_step ih hstep

theorem step_cpk {K : Type} [DecidableEq K] {s s' : FilterState K} (h : Step s s') :
    s'.channels_per_key = s.channels_per_key := by
  cases h with
  | newChan key tid h =>
      obtain ⟨-, hcase⟩ := increment_ok_inv h
      rcases hcase with ⟨-, rfl⟩ | ⟨cid, c, -, -, -, -, rfl⟩ <;> rfl
  | rejectChan key h => rfl
  | dropChan tid h =>
      obtain ⟨t, c, -, -, -, hcase⟩ := dropTracker_some_inv h
      rcases hcase with ⟨-, -, rfl⟩ | ⟨-, rfl⟩
      · rw [unbounded_send]
        split <;> rfl
      · rfl
  | cleanupStep h =>
      obtain ⟨k, rest, -, rfl⟩ := poll_closed_some_inv h
      rfl
  | closeRx => rfl

theorem reachable_cpk {K : Type} [DecidableEq K] {cpk : Nat} {s : FilterState K}
    (h : Reachable cpk s) : s.channels_per_key = cpk := by
  unfold Reachable at h
  induction h with
  | refl => rfl
  | tail hr hstep ih =>
      rw [step_cpk hstep]
      exact ih

/-! ### Derived facts used by the claims -/

theorem inv_liveKeyCount_eq {K : Type} [DecidableEq K] {s : FilterState K} (inv : Inv s)
    {k : K} {cid : Nat} (hl : alookup s.key_counts k = some cid) {c : Cell K}
    (hc : s.cells[cid]? = some c) : liveKeyCount s k = c.cnt := by
  rw [inv.cell_cnt cid c hc, liveKeyCount, aliveCount]
  apply List.countP_congr
  intro t ht
  by_cases ha : t.alive = true
  · simp only [ha, Bool.true_and, decide_eq_true_eq]
    constructor
    · intro hk
      have he := inv.alive_entry t ht ha
      rw [hk, hl] at he
      injection he with he
      exact he.symm
    · intro hcid
      obtain ⟨c0, hc0, hk0⟩ := inv.tracker_cell t ht ha
      rw [hcid, hc] at hc0
      injection hc0 with hc0
      obtain ⟨c1, hc1, hk1⟩ := inv.entry_cell k cid hl
      rw [hc] at hc1
      injection hc1 with hc1
      rw [← hk0, ← hc0, hc1, hk1]
  · simp only [Bool.not_eq_true] at ha
    simp [ha]

theorem liveKeyCount_pos_entry {K : Type} [DecidableEq K] {s : FilterState K} (inv : Inv s)
    {k : K} (hpos : 0 < liveKeyCount s k) :
    ∃ cid c, alookup s.key_counts k = some cid ∧ s.cells[cid]? = some c := by
  rw [liveKeyCount] at hpos
  obtain ⟨t, ht, hp⟩ := List.countP_pos_iff.mp hpos
  simp only [Bool.and_eq_true, decide_eq_true_eq] at hp
  obtain ⟨ha, hk⟩ := hp
  have he := inv.alive_entry t ht ha
  rw [hk] at he
  obtain ⟨c, hc, -⟩ := inv.entry_cell k t.cellId he
  exact ⟨t.cellId, c, he, hc⟩

theorem reachable_liveKeyCount_le {K : Type} [DecidableEq K] {cpk : Nat}
    {s : FilterState K} (hreach : Reachable cpk s) (hcpk : 1 ≤ cpk) (k : K) :
    liveKeyCount s k ≤ cpk := by
  have inv := reachable_inv hreach
  have hcpk' := reachable_cpk hreach
  rcases Nat.eq_zero_or_pos (liveKeyCount s k) with hz | hpos
  · omega
  · obtain ⟨cid, c, hl, hc⟩ := liveKeyCount_pos_entry inv hpos
    have heq := inv_liveKeyCount_eq inv hl hc
    have hle := inv.cnt_le (by omega) cid c hc
    omega

/-! ### Poll-loop lemmas -/

theorem pollNextGo_fuel {I K : Type} [DecidableEq K] (km : I → K) :
    ∀ (fuel fuel' : Nat) (fs : FilterState K) (ls : ListenerState I) (rejs : List K),
    ls.pending.length + fs.queue.length < fuel →
    ls.pending.length + fs.queue.length < fuel' →
    pollNextGo km fuel fs ls rejs = pollNextGo km fuel' fs ls rejs := by
  intro fuel
  induction fuel with
  | zero =>
      intro fuel' fs ls rejs h h'
      omega
  | succ n ih =>
      intro fuel' fs ls rejs h h'
      cases fuel' with
      | zero => omega
      | succ n' =>
          cases hp : ls.pending with
          | nil =>
              cases hq : fs.queue with
              | nil => simp only [pollNextGo, hp, hq]
              | cons kq qrest =>
                  simp only [pollNextGo, hp, hq]
                  apply ih
                  · simp only [hp, hq, List.length_cons, List.length_nil] at h
                    simp only [hp, List.length_nil]
                    simp
                    omega
                  · simp only [hp, hq, List.length_cons, List.length_nil] at h'
                    simp only [hp, List.length_nil]
                    simp
                    omega
          | cons item rest =>
              cases hh : handle_new_channel km fs item with
              | panicked => simp only [pollNextGo, hp, hh]
              | ok chan fs1 => simp only [pollNextGo, hp, hh]
              | rejected k =>
                  cases hq : fs.queue with
                  | nil =>
                      simp only [pollNextGo, hp, hh, hq]
                      apply ih
                      · simp only [hp, hq, List.length_cons, List.length_nil] at h
                        simp [hq]
                        omega
                      · simp only [hp, hq, List.length_cons, List.length_nil] at h'
                        simp [hq]
                        omega
                  | cons kq qrest =>
                      simp only [pollNextGo, hp, hh, hq]
                      apply ih
                      · simp only [hp, hq, List.length_cons, List.length_nil] at h
                        simp
                        omega
                      · simp only [hp, hq, List.length_cons, List.length_nil] at h'
                        simp
                        omega

theorem pollNext_eq_go {I K : Type} [DecidableEq K] (km : I → K) (fuel : Nat)
    (fs : FilterState K) (ls : ListenerState I) (rejs : List K)
    (h : ls.pending.length + fs.queue.length < fuel) :
    pollNext km fs ls rejs = pollNextGo km fuel fs ls rejs := by
  rw [pollNext]
  exact pollNextGo_fuel km _ fuel fs ls rejs (by omega) h

theorem pollNextGo_succ_panicked {I K : Type} [DecidableEq K] {km : I → K} (fuel : Nat)
    {fs : FilterState K} {ls : ListenerState I} {rejs : List K} {item : I} {rest : List I}
    (hp : ls.pending = item :: rest)
    (hh : handle_new_channel km fs item = .panicked) :
    pollNextGo km (fuel + 1) fs ls rejs = ⟨.panicked, fs, { ls with pending := rest }, rejs⟩ := by
  simp only [pollNextGo, hp, hh]

theorem pollNextGo_succ_ok_queue {I K : Type} [DecidableEq K] {km : I → K} (fuel : Nat)
    {fs : FilterState K} {ls : ListenerState I} {rejs : List K} {item : I} {rest : List I}
    {chan : TrackedChannel I} {fs1 : FilterState K} {kq : K} {qrest : List K}
    (hp : ls.pending = item :: rest)
    (hh : handle_new_channel km fs item = .ok chan fs1)
    (hq : fs1.queue = kq :: qrest) :
    pollNextGo km (fuel + 1) fs ls rejs =
      ⟨.yielded chan,
        { fs1 with key_counts := compact (aremove fs1.key_counts kq), queue := qrest },
        { ls with pending := rest }, rejs⟩ := by
  simp only [pollNextGo, hp, hh, hq]

theorem pollNextGo_succ_ok_nil {I K : Type} [DecidableEq K] {km : I → K} (fuel : Nat)
    {fs : FilterState K} {ls : ListenerState I} {rejs : List K} {item : I} {rest : List I}
    {chan : TrackedChannel I} {fs1 : FilterState K}
    (hp : ls.pending = item :: rest)
    (hh : handle_new_channel km fs item = .ok chan fs1)
    (hq : fs1.queue = []) :
    pollNextGo km (fuel + 1) fs ls rejs =
      ⟨.yielded chan, fs1, { ls with pending := rest }, rejs⟩ := by
  simp only [pollNextGo, hp, hh, hq]

theorem pollNextGo_succ_rejected_queue {I K : Type} [DecidableEq K] {km : I → K} (fuel : Nat)
    {fs : FilterState K} {ls : ListenerState I} {rejs : List K} {item : I} {rest : List I}
    {k kq : K} {qrest : List K}
    (hp : ls.pending = item :: rest)
    (hh : handle_new_channel km fs item = .rejected k)
    (hq : fs.queue = kq :: qrest) :
    pollNextGo km (fuel + 1) fs ls rejs =
      pollNextGo km fuel
        { fs with key_counts := compact (aremove fs.key_counts kq), queue := qrest }
        { ls with pending := rest } (rejs ++ [k]) := by
  simp only [pollNextGo, hp, hh, hq]

theorem pollNextGo_succ_rejected_nil {I K : Type} [DecidableEq K] {km : I → K} (fuel : Nat)
    {fs : FilterState K} {ls : ListenerState I} {rejs : List K} {item : I} {rest : List I}
    {k : K} (hp : ls.pending = item :: rest)
    (hh : handle_new_channel km fs item = .rejected k)
    (hq : fs.queue = []) :
    pollNextGo km (fuel + 1) fs ls rejs =
      pollNextGo km fuel fs { ls with pending := rest } (rejs ++ [k]) := by
  simp only [pollNextGo, hp, hh, hq]

theorem pollNextGo_succ_nil_queue {I K : Type} [DecidableEq K] {km : I → K} (fuel : Nat)
    {fs : FilterState K} {ls : ListenerState I} {rejs : List K} {kq : K} {qrest : List K}
    (hp : ls.pending = []) (hq : fs.queue = kq :: qrest) :
    pollNextGo km (fuel + 1) fs ls rejs =
      pollNextGo km fuel
        { fs with key_counts := compact (aremove fs.key_counts kq), queue := qrest }
        ls rejs := by
  simp only [pollNextGo, hp, hq]

theorem pollNextGo_succ_nil_nil {I K : Type} [DecidableEq K] {km : I → K} (fuel : Nat)
    {fs : FilterState K} {ls : ListenerState I} {rejs : List K}
    (hp : ls.pending = []) (hq : fs.queue = []) :
    pollNextGo km (fuel + 1) fs ls rejs =
      if ls.closed then ⟨.completed, fs, ls, rejs⟩ else ⟨.pending, fs, ls, rejs⟩ := by
  simp only [pollNextGo, hp, hq]

theorem pollNext_rejected_queue_eq {I K : Type} [DecidableEq K] {km : I → K}
    {fs : FilterState K} {ls : ListenerState I} {rejs : List K} {item : I} {rest : List I}
    {k kq : K} {qrest : List K}
    (hp : ls.pending = item :: rest)
    (hh : handle_new_channel km fs item = .rejected k)
    (hq : fs.queue = kq :: qrest) :
    pollNext km fs ls rejs =
      pollNext km
        { fs with key_counts := compact (aremove fs.key_counts kq), queue := qrest }
        { ls with pending := rest } (rejs ++ [k]) := by
  rw [pollNext, pollNextGo_succ_rejected_queue _ hp hh hq]
  refine (pollNext_eq_go km _ _ _ _ ?_).symm
  simp only [hp, hq, List.length_cons]
  omega

theorem pollNext_rejected_nil_eq {I K : Type} [DecidableEq K] {km : I → K}
    {fs : FilterState K} {ls : ListenerState I} {rejs : List K} {item : I} {rest : List I}
    {k : K} (hp : ls.pending = item :: rest)
    (hh : handle_new_channel km fs item = .rejected k)
    (hq : fs.queue = []) :
    pollNext km fs ls rejs = pollNext km fs { ls with pending := rest } (rejs ++ [k]) := by
  rw [pollNext, pollNextGo_succ_rejected_nil _ hp hh hq]
  refine (pollNext_eq_go km _ _ _ _ ?_).symm
  simp only [hp, List.length_cons]
  simp

theorem pollNext_nil_queue_eq {I K : Type} [DecidableEq K] {km : I → K}
    {fs : FilterState K} {ls : ListenerState I} {rejs : List K} {kq : K} {qrest : List K}
    (hp : ls.pending = []) (hq : fs.queue = kq :: qrest) :
    pollNext km fs ls rejs =
      pollNext km
        { fs with key_counts := compact (aremove fs.key_counts kq), queue := qrest }
        ls rejs := by
  rw [pollNext, pollNextGo_succ_nil_queue _ hp hq]
  refine (pollNext_eq_go km _ _ _ _ ?_).symm
  simp only [hp, hq, List.length_cons, List.length_nil]
  simp

theorem pollNext_nil_nil_eq {I K : Type} [DecidableEq K] {km : I → K}
    {fs : FilterState K} {ls : ListenerState I} {rejs : List K}
    (hp : ls.pending = []) (hq : fs.queue = []) :
    pollNext km fs ls rejs =
      if ls.closed then ⟨.completed, fs, ls, rejs⟩ else ⟨.pending, fs, ls, rejs⟩ := by
  rw [pollNext]
  exact pollNextGo_succ_nil_nil _ hp hq

theorem pollNext_panicked_eq {I K : Type} [DecidableEq K] {km : I → K}
    {fs : FilterState K} {ls : ListenerState I} {rejs : List K} {item : I} {rest : List I}
    (hp : ls.pending = item :: rest)
    (hh : handle_new_channel km fs item = .panicked) :
    pollNext km fs ls rejs = ⟨.panicked, fs, { ls with pending := rest }, rejs⟩ := by
  rw [pollNext]
  exact pollNextGo_succ_panicked _ hp hh

theorem handle_ok_inv {I K : Type} [DecidableEq K] {km : I → K} {s : FilterState K}
    {item : I} {chan : TrackedChannel I} {s' : FilterState K}
    (h : handle_new_channel km s item = .ok chan s') :
    increment_channels_for_key s (km item) = .ok chan.trackerId s' ∧ chan.inner = item := by
  unfold handle_new_channel at h
  split at h
  · next tid s2 hinc =>
      injection h with h1 h2
      subst h2
      rw [← h1]
      exact ⟨hinc, rfl⟩
  · exact absurd h (by simp)
  · exact absurd h (by simp)

theorem handle_rejected_inv {I K : Type} [DecidableEq K] {km : I → K} {s : FilterState K}
    {item : I} {k : K} (h : handle_new_channel km s item = .rejected k) :
    increment_channels_for_key s (km item) = .rejected k := by
  unfold handle_new_channel at h
  split at h
  · exact absurd h (by simp)
  · next k2 hinc =>
      injection h with h1
      rw [← h1]
      exact hinc
  · exact absurd h (by simp)

theorem increment_ok_alive {K : Type} [DecidableEq K] {s : FilterState K} {key : K}
    {tid : Nat} {s' : FilterState K} (h : increment_channels_for_key s key = .ok tid s') :
    ∃ t, s'.trackers[tid]? = some t ∧ t.alive = true := by
  obtain ⟨htid, hcase⟩ := increment_ok_inv h
  subst htid
  rcases hcase with ⟨-, rfl⟩ | ⟨cid, c, -, -, -, -, rfl⟩
  · exact ⟨_, List.getElem?_concat_length _ _, rfl⟩
  · exact ⟨_, List.getElem?_concat_length _ _, rfl⟩

theorem pollNextGo_drain {I K : Type} [DecidableEq K] (km : I → K) :
    ∀ (fuel : Nat) (fs : FilterState K) (ls : ListenerState I) (rejs : List K),
    ls.pending = [] → fs.queue.length < fuel →
    pollNextGo km fuel fs ls rejs =
      ⟨if ls.closed then .completed else .pending,
        { fs with
          key_counts := List.foldl (fun m kq => compact (aremove m kq)) fs.key_counts fs.queue,
          queue := [] }, ls, rejs⟩ := by
  intro fuel
  induction fuel with
  | zero =>
      intro fs ls rejs hp h
      omega
  | succ n ih =>
      intro fs ls rejs hp h
      obtain ⟨cpk, cells, kc, tr, q, rx⟩ := fs
      cases hq : q with
      | nil =>
          subst hq
          rw [pollNextGo_succ_nil_nil n hp rfl]
          by_cases hc : ls.closed = true <;> simp [hc]
      | cons kq qrest =>
          subst hq
          rw [pollNextGo_succ_nil_queue n hp rfl]
          rw [ih _ ls rejs hp (by simp at h ⊢; omega)]
          simp

theorem alookup_foldl_remove {K : Type} [DecidableEq K] :
    ∀ (q : List K) (m : List (K × Nat)) (k : K), (m.map Prod.fst).Nodup →
    (alookup m k = none ∨ k ∈ q) →
    alookup (List.foldl (fun m kq => compact (aremove m kq)) m q) k = none := by
  intro q
  induction q with
  | nil =>
      intro m k hnd h
      rcases h with h | h
      · exact h
      · simp at h
  | cons kq rest ih =>
      intro m k hnd h
      simp only [List.foldl_cons, compact]
      apply ih
      · exact ((aremove_sublist m kq).map Prod.fst).nodup hnd
      · rcases h with h | h
        · left
          exact alookup_aremove_none h
        · rcases List.mem_cons.mp h with rfl | hm
          · left
            exact alookup_aremove_self hnd
          · right
            exact hm

theorem pollNextGo_completed_props {I K : Type} [DecidableEq K] (km : I → K) :
    ∀ (fuel : Nat) (fs : FilterState K) (ls : ListenerState I) (rejs : List K),
    ls.pending.length + fs.queue.length < fuel →
    (pollNextGo km fuel fs ls rejs).outcome = .completed →
      (pollNextGo km fuel fs ls rejs).listener.pending = [] ∧
      (pollNextGo km fuel fs ls rejs).listener.closed = true ∧
      (pollNextGo km fuel fs ls rejs).fs.queue = [] := by
  intro fuel
  induction fuel with
  | zero =>
      intro fs ls rejs h
      omega
  | succ n ih =>
      intro fs ls rejs h hout
      cases hp : ls.pending with
      | nil =>
          cases hq : fs.queue with
          | nil =>
              rw [pollNextGo_succ_nil_nil n hp hq] at hout ⊢
              by_cases hc : ls.closed = true
              · rw [if_pos hc]
                exact ⟨hp, hc, hq⟩
              · rw [if_neg hc] at hout
                exact absurd hout (by simp)
          | cons kq qrest =>
              rw [pollNextGo_succ_nil_queue n hp hq] at hout ⊢
              apply ih
              · simp [hp, hq] at h ⊢
                omega
              · exact hout
      | cons item rest =>
          cases hh : handle_new_channel km fs item with
          | panicked =>
              rw [pollNextGo_succ_panicked n hp hh] at hout
              exact absurd hout (by simp)
          | ok chan fs1 =>
              cases hq : fs1.queue with
              | nil =>
                  rw [pollNextGo_succ_ok_nil n hp hh hq] at hout
                  exact absurd hout (by simp)
              | cons kq qrest =>
                  rw [pollNextGo_succ_ok_queue n hp hh hq] at hout
                  exact absurd hout (by simp)
          | rejected k =>
              cases hq : fs.queue with
              | nil =>
                  rw [pollNextGo_succ_rejected_nil n hp hh hq] at hout ⊢
                  apply ih
                  · simp [hp, hq] at h ⊢
                    omega
                  · exact hout
              | cons kq qrest =>
                  rw [pollNextGo_succ_rejected_queue n hp hh hq] at hout ⊢
                  apply ih
                  · simp [hp, hq] at h ⊢
                    omega
                  · exact hout

theorem pollNextGo_yielded_tracker {I K : Type} [DecidableEq K] (km : I → K) :
    ∀ (fuel : Nat) (fs : FilterState K) (ls : ListenerState I) (rejs : List K)
      (chan : TrackedChannel I),
    ls.pending.length + fs.queue.length < fuel →
    (pollNextGo km fuel fs ls rejs).outcome = .yielded chan →
      ∃ t, ((pollNextGo km fuel fs ls rejs).fs).trackers[chan.trackerId]? = some t ∧
        t.alive = true := by
  intro fuel
  induction fuel with
  | zero =>
      intro fs ls rejs chan h
      omega
  | succ n ih =>
      intro fs ls rejs chan h hout
      cases hp : ls.pending with
      | nil =>
          cases hq : fs.queue with
          | nil =>
              rw [pollNextGo_succ_nil_nil n hp hq] at hout
              by_cases hc : ls.closed = true
              · rw [if_pos hc] at hout
                exact absurd hout (by simp)
              · rw [if_neg hc] at hout
                exact absurd hout (by simp)
          | cons kq qrest =>
              rw [pollNextGo_succ_nil_queue n hp hq] at hout ⊢
              apply ih
              · simp [hp, hq] at h ⊢
                omega
              · exact hout
      | cons item rest =>
          cases hh : handle_new_channel km fs item with
          | panicked =>
              rw [pollNextGo_succ_panicked n hp hh] at hout
              exact absurd hout (by simp)
          | ok chan1 fs1 =>
              obtain ⟨hinc, -⟩ := handle_ok_inv hh
              obtain ⟨t, htr, halive⟩ := increment_ok_alive hinc
              cases hq : fs1.queue with
              | nil =>
                  rw [pollNextGo_succ_ok_nil n hp hh hq] at hout ⊢
                  simp only [PollOutcome.yielded.injEq] at hout
                  subst hout
                  exact ⟨t, htr, halive⟩
              | cons kq qrest =>
                  rw [pollNextGo_succ_ok_queue n hp hh hq] at hout ⊢
                  simp only [PollOutcome.yielded.injEq] at hout
                  subst hout
                  exact ⟨t, htr, halive⟩
          | rejected k =>
              cases hq : fs.queue with
              | nil =>
                  rw [pollNextGo_succ_rejected_nil n hp hh hq] at hout ⊢
                  apply ih
                  · simp [hp, hq] at h ⊢
                    omega
                  · exact hout
              | cons kq qrest =>
                  rw [pollNextGo_succ_rejected_queue n hp hh hq] at hout ⊢
                  apply ih
                  · simp [hp, hq] at h ⊢
                    omega
                  · exact hout

/-! ### The claims -/

/-- C1 (amended: requires `channels_per_key ≥ 1`; the vacant branch of
`increment_channels_for_key` admits unconditionally, so with ceiling 0 the
first admission for a fresh key still succeeds): for every key and every
reachable state of the filter, the number of concurrently live trackers
for that key never exceeds `channels_per_key`, and an admission attempt
made while the live count equals `channels_per_key` is rejected with the
original key returned unchanged. -/
theorem C1_ceiling_enforcement {K : Type} [DecidableEq K] {cpk : Nat} (hcpk : 1 ≤ cpk)
    {s : FilterState K} (hreach : Reachable cpk s) (k : K) :
    liveKeyCount s k ≤ cpk ∧
    (liveKeyCount s k = cpk → increment_channels_for_key s k = .rejected k) := by
  have inv := reachable_inv hreach
  have hcpk' := reachable_cpk hreach
  refine ⟨reachable_liveKeyCount_le hreach hcpk k, ?_⟩
  intro heq
  have hpos : 0 < liveKeyCount s k := by omega
  obtain ⟨cid, c, hl, hc⟩ := liveKeyCount_pos_entry inv hpos
  have hcnt := inv_liveKeyCount_eq inv hl hc
  simp only [increment_channels_for_key, hl, hc]
  rw [if_pos (by omega)]

/-- C1, counterexample to the unrestricted claim: with
`channels_per_key = 0` the first arrival for a fresh key is admitted, so
a state with one live tracker — exceeding the ceiling 0 — is reachable. -/
theorem C1_counterexample :
    Reachable 0 (⟨0, [⟨0, 1, 1⟩], [(0, 0)], [⟨0, 0, true⟩], [], true⟩ : FilterState Nat) ∧
    ¬ liveKeyCount (⟨0, [⟨0, 1, 1⟩], [(0, 0)], [⟨0, 0, true⟩], [], true⟩ : FilterState Nat) 0 ≤ 0 := by
  constructor
  · exact Relation.ReflTransGen.single (Step.newChan 0 0 (by decide))
  · decide

theorem C1_ceiling_enforcement_witness :
    (1 ≤ 2) ∧
    Reachable 2 (⟨2, [⟨7, 1, 1⟩], [(7, 0)], [⟨7, 0, true⟩], [], true⟩ : FilterState Nat) ∧
    (liveKeyCount (⟨2, [⟨7, 1, 1⟩], [(7, 0)], [⟨7, 0, true⟩], [], true⟩ : FilterState Nat) 7 ≤ 2 ∧
      (liveKeyCount (⟨2, [⟨7, 1, 1⟩], [(7, 0)], [⟨7, 0, true⟩], [], true⟩ : FilterState Nat) 7 = 2 →
        increment_channels_for_key
          (⟨2, [⟨7, 1, 1⟩], [(7, 0)], [⟨7, 0, true⟩], [], true⟩ : FilterState Nat) 7 =
          .rejected 7)) := by
  have hreach : Reachable 2 (⟨2, [⟨7, 1, 1⟩], [(7, 0)], [⟨7, 0, true⟩], [], true⟩ : FilterState Nat) :=
    Relation.ReflTransGen.single (Step.newChan 7 0 (by decide))
  exact ⟨by decide, hreach, C1_ceiling_enforcement (by decide) hreach 7⟩

/-- C2: the claim describes the intended behaviour (re-admission for a
key whose trackers have all been dropped, before cleanup runs, should
succeed with a fresh tracker), but the code panics there: the last
`Tracker::drop` consumed the `Arc<K>` via `try_unwrap`, so the map
entry's `Weak<K>` is dead, and the `Occupied` arm's
`key.upgrade().unwrap()` panics.  This theorem evaluates the embedded
code at the failing input: admit key 0 (ceiling 2), drop its tracker,
then admit key 0 again while the cleanup notification is still queued —
the admission panics instead of returning a fresh tracker. -/
theorem C2_reuse_after_exhaustion_panics :
    Reachable 2 (⟨2, [⟨0, 0, 0⟩], [(0, 0)], [⟨0, 0, false⟩], [0], true⟩ : FilterState Nat) ∧
    (⟨2, [⟨0, 0, 0⟩], [(0, 0)], [⟨0, 0, false⟩], [0], true⟩ : FilterState Nat).queue = [0] ∧
    increment_channels_for_key
      (⟨2, [⟨0, 0, 0⟩], [(0, 0)], [⟨0, 0, false⟩], [0], true⟩ : FilterState Nat) 0 =
      .panicked := by
  have h1 : Step (initState Nat 2)
      (⟨2, [⟨0, 1, 1⟩], [(0, 0)], [⟨0, 0, true⟩], [], true⟩ : FilterState Nat) :=
    Step.newChan 0 0 (by decide)
  have h2 : Step (⟨2, [⟨0, 1, 1⟩], [(0, 0)], [⟨0, 0, true⟩], [], true⟩ : FilterState Nat)
      (⟨2, [⟨0, 0, 0⟩], [(0, 0)], [⟨0, 0, false⟩], [0], true⟩ : FilterState Nat) :=
    Step.dropChan 0 (by decide)
  exact ⟨Relation.ReflTransGen.tail (Relation.ReflTransGen.single h1) h2, by decide, by decide⟩

/-- C3 (amended): with `channels_per_key = 0`, an arrival whose key has a
map entry is always rejected, but an arrival for a key absent from the
map is always admitted — the `Vacant` arm admits unconditionally, so
`0` does not, in fact, admit nothing. -/
theorem C3_zero_ceiling {K : Type} [DecidableEq K] {s : FilterState K}
    (hreach : Reachable 0 s) (k : K) :
    (alookup s.key_counts k = none →
      increment_channels_for_key s k = .ok s.trackers.length
        { s with
          cells := s.cells ++ [⟨k, 1, 1⟩]
          key_counts := (k, s.cells.length) :: s.key_counts
          trackers := s.trackers ++ [⟨k, s.cells.length, true⟩] }) ∧
    (∀ cid : Nat, alookup s.key_counts k = some cid →
      increment_channels_for_key s k = .rejected k) := by
  have inv := reachable_inv hreach
  have hcpk := reachable_cpk hreach
  constructor
  · intro hl
    simp only [increment_channels_for_key, hl]
  · intro cid hl
    obtain ⟨c, hc, -⟩ := inv.entry_cell k cid hl
    simp only [increment_channels_for_key, hl, hc]
    rw [if_pos (by omega)]

/-- C3, counterexample: with `channels_per_key = 0` the very first
arrival for key 0 (absent from the map) is admitted, contradicting
"`0` admits nothing". -/
theorem C3_counterexample :
    increment_channels_for_key (initState Nat 0) 0 =
      .ok 0 (⟨0, [⟨0, 1, 1⟩], [(0, 0)], [⟨0, 0, true⟩], [], true⟩ : FilterState Nat) := by
  decide

theorem C3_zero_ceiling_witness :
    Reachable 0 (⟨0, [⟨5, 1, 1⟩], [(5, 0)], [⟨5, 0, true⟩], [], true⟩ : FilterState Nat) ∧
    ((alookup (⟨0, [⟨5, 1, 1⟩], [(5, 0)], [⟨5, 0, true⟩], [], true⟩ : FilterState Nat).key_counts 5 = none →
      increment_channels_for_key
        (⟨0, [⟨5, 1, 1⟩], [(5, 0)], [⟨5, 0, true⟩], [], true⟩ : FilterState Nat) 5 =
        .ok 1 ⟨0, [⟨5, 1, 1⟩, ⟨5, 1, 1⟩], [(5, 1), (5, 0)], [⟨5, 0, true⟩, ⟨5, 1, true⟩], [], true⟩) ∧
     (∀ cid : Nat,
        alookup (⟨0, [⟨5, 1, 1⟩], [(5, 0)], [⟨5, 0, true⟩], [], true⟩ : FilterState Nat).key_counts 5 =
          some cid →
        increment_channels_for_key
          (⟨0, [⟨5, 1, 1⟩], [(5, 0)], [⟨5, 0, true⟩], [], true⟩ : FilterState Nat) 5 =
          .rejected 5)) := by
  have hreach : Reachable 0 (⟨0, [⟨5, 1, 1⟩], [(5, 0)], [⟨5, 0, true⟩], [], true⟩ : FilterState Nat) :=
    Relation.ReflTransGen.single (Step.newChan 5 0 (by decide))
  exact ⟨hreach, C3_zero_ceiling hreach 5⟩

/-- C5: in every reachable state, the shared live count read through a
key's map entry equals the number of un-dropped trackers referencing that
key; in particular after N admissions and M ≤ N drops for one key (with
no cleanup poll) the count reads N − M. -/
theorem C5_count_eq_live_trackers {K : Type} [DecidableEq K] {cpk : Nat}
    {s : FilterState K} (hreach : Reachable cpk s) {k : K} {cid : Nat} {c : Cell K}
    (hl : alookup s.key_counts k = some cid) (hc : s.cells[cid]? = some c) :
    c.cnt = liveKeyCount s k :=
  (inv_liveKeyCount_eq (reachable_inv hreach) hl hc).symm

theorem C5_count_eq_live_trackers_witness :
    Reachable 2 (⟨2, [⟨0, 1, 1⟩], [(0, 0)], [⟨0, 0, true⟩, ⟨0, 0, false⟩], [], true⟩ : FilterState Nat) ∧
    (⟨0, 1, 1⟩ : Cell Nat).cnt =
      liveKeyCount (⟨2, [⟨0, 1, 1⟩], [(0, 0)], [⟨0, 0, true⟩, ⟨0, 0, false⟩], [], true⟩ : FilterState Nat) 0 := by
  have h1 : Step (initState Nat 2)
      (⟨2, [⟨0, 1, 1⟩], [(0, 0)], [⟨0, 0, true⟩], [], true⟩ : FilterState Nat) :=
    Step.newChan 0 0 (by decide)
  have h2 : Step (⟨2, [⟨0, 1, 1⟩], [(0, 0)], [⟨0, 0, true⟩], [], true⟩ : FilterState Nat)
      (⟨2, [⟨0, 2, 2⟩], [(0, 0)], [⟨0, 0, true⟩, ⟨0, 0, true⟩], [], true⟩ : FilterState Nat) :=
    Step.newChan 0 1 (by decide)
  have h3 : Step (⟨2, [⟨0, 2, 2⟩], [(0, 0)], [⟨0, 0, true⟩, ⟨0, 0, true⟩], [], true⟩ : FilterState Nat)
      (⟨2, [⟨0, 1, 1⟩], [(0, 0)], [⟨0, 0, true⟩, ⟨0, 0, false⟩], [], true⟩ : FilterState Nat) :=
    Step.dropChan 1 (by decide)
  have hreach : Reachable 2
      (⟨2, [⟨0, 1, 1⟩], [(0, 0)], [⟨0, 0, true⟩, ⟨0, 0, false⟩], [], true⟩ : FilterState Nat) :=
    Relation.ReflTransGen.tail
      (Relation.ReflTransGen.tail (Relation.ReflTransGen.single h1) h2) h3
  have hl : alookup
      (⟨2, [⟨0, 1, 1⟩], [(0, 0)], [⟨0, 0, true⟩, ⟨0, 0, false⟩], [], true⟩ : FilterState Nat).key_counts 0 =
      some 0 := by decide
  have hc : (⟨2, [⟨0, 1, 1⟩], [(0, 0)], [⟨0, 0, true⟩, ⟨0, 0, false⟩], [], true⟩ : FilterState Nat).cells[0]? =
      some ⟨0, 1, 1⟩ := by decide
  exact ⟨hreach, C5_count_eq_live_trackers hreach hl hc⟩

/-- C10: dropping a live tracker in any reachable state never executes
the `unreachable!()` branch of `Tracker::drop` — whenever the counter
value is ≤ 1 at drop time the dropped tracker holds the unique strong
`Arc<K>` reference, so `Arc::try_unwrap` succeeds. -/
theorem C10_drop_never_panics {K : Type} [DecidableEq K] {cpk : Nat} {s : FilterState K}
    (hreach : Reachable cpk s) {tid : Nat} {t : TrackerObj K}
    (ht : s.trackers[tid]? = some t) (halive : t.alive = true) :
    (dropTracker s tid).isSome = true := by
  have inv := reachable_inv hreach
  have htmem := mem_of_getElem?_eq ht
  obtain ⟨c, hc, -⟩ := inv.tracker_cell t htmem halive
  have hccnt := inv.cell_cnt t.cellId c hc
  have hcstr := inv.cell_strong t.cellId c hc
  have hpos : 0 < aliveCount s t.cellId := by
    rw [aliveCount]
    exact List.countP_pos_iff.mpr ⟨t, htmem, by simp [halive]⟩
  simp only [dropTracker, ht, halive, if_true, hc]
  by_cases hcnt : c.cnt ≤ 1
  · rw [if_pos hcnt, if_pos (by omega)]
    rfl
  · rw [if_neg hcnt]
    rfl

theorem C10_drop_never_panics_witness :
    Reachable 2 (⟨2, [⟨0, 1, 1⟩], [(0, 0)], [⟨0, 0, true⟩], [], true⟩ : FilterState Nat) ∧
    (dropTracker (⟨2, [⟨0, 1, 1⟩], [(0, 0)], [⟨0, 0, true⟩], [], true⟩ : FilterState Nat) 0).isSome = true := by
  have hreach : Reachable 2 (⟨2, [⟨0, 1, 1⟩], [(0, 0)], [⟨0, 0, true⟩], [], true⟩ : FilterState Nat) :=
    Relation.ReflTransGen.single (Step.newChan 0 0 (by decide))
  have ht : (⟨2, [⟨0, 1, 1⟩], [(0, 0)], [⟨0, 0, true⟩], [], true⟩ : FilterState Nat).trackers[0]? =
      some ⟨0, 0, true⟩ := by decide
  have halive : (⟨0, 0, true⟩ : TrackerObj Nat).alive = true := by decide
  exact ⟨hreach, C10_drop_never_panics hreach ht halive⟩

/-- C4: in every reachable state, dropping a live tracker succeeds and
enqueues exactly one closed-key notification when and only when that
tracker is the last live tracker for its key; dropping a non-last
tracker enqueues nothing; and when the queue's consuming end is closed
the send failure is silently ignored (the drop still succeeds, the queue
is simply unchanged). -/
theorem C4_last_drop_notifies {K : Type} [DecidableEq K] {cpk : Nat} {s : FilterState K}
    (hreach : Reachable cpk s) {tid : Nat} {t : TrackerObj K}
    (ht : s.trackers[tid]? = some t) (halive : t.alive = true) :
    ∃ s', dropTracker s tid = some s' ∧
      (liveKeyCount s t.keyVal = 1 →
        (s.rxOpen = true → s'.queue = s.queue ++ [t.keyVal]) ∧
        (s.rxOpen = false → s'.queue = s.queue)) ∧
      (liveKeyCount s t.keyVal ≠ 1 → s'.queue = s.queue) := by
  have inv := reachable_inv hreach
  have htmem := mem_of_getElem?_eq ht
  obtain ⟨c, hc, hkey⟩ := inv.tracker_cell t htmem halive
  have hccnt := inv.cell_cnt t.cellId c hc
  have hcstr := inv.cell_strong t.cellId c hc
  have hl := inv.alive_entry t htmem halive
  have hlive := inv_liveKeyCount_eq inv hl hc
  have hpos : 0 < aliveCount s t.cellId := by
    rw [aliveCount]
    exact List.countP_pos_iff.mpr ⟨t, htmem, by simp [halive]⟩
  simp only [dropTracker, ht, halive, if_true, hc]
  by_cases hcnt : c.cnt ≤ 1
  · rw [if_pos hcnt, if_pos (by omega)]
    refine ⟨_, rfl, ?_, ?_⟩
    · intro hone
      constructor
      · intro hrx
        simp [unbounded_send, hrx, hkey]
      · intro hrx
        simp [unbounded_send, hrx]
    · intro hne
      exact absurd (by omega) hne
  · rw [if_neg hcnt]
    refine ⟨_, rfl, ?_, ?_⟩
    · intro hone
      exact absurd hone (by omega)
    · intro hne
      rfl

theorem C4_last_drop_notifies_witness :
    Reachable 2 (⟨2, [⟨0, 1, 1⟩], [(0, 0)], [⟨0, 0, true⟩], [], true⟩ : FilterState Nat) ∧
    (∃ s', dropTracker (⟨2, [⟨0, 1, 1⟩], [(0, 0)], [⟨0, 0, true⟩], [], true⟩ : FilterState Nat) 0 =
        some s' ∧
      (liveKeyCount (⟨2, [⟨0, 1, 1⟩], [(0, 0)], [⟨0, 0, true⟩], [], true⟩ : FilterState Nat)
          (⟨0, 0, true⟩ : TrackerObj Nat).keyVal = 1 →
        ((⟨2, [⟨0, 1, 1⟩], [(0, 0)], [⟨0, 0, true⟩], [], true⟩ : FilterState Nat).rxOpen = true →
          s'.queue = (⟨2, [⟨0, 1, 1⟩], [(0, 0)], [⟨0, 0, true⟩], [], true⟩ : FilterState Nat).queue ++
            [(⟨0, 0, true⟩ : TrackerObj Nat).keyVal]) ∧
        ((⟨2, [⟨0, 1, 1⟩], [(0, 0)], [⟨0, 0, true⟩], [], true⟩ : FilterState Nat).rxOpen = false →
          s'.queue = (⟨2, [⟨0, 1, 1⟩], [(0, 0)], [⟨0, 0, true⟩], [], true⟩ : FilterState Nat).queue)) ∧
      (liveKeyCount (⟨2, [⟨0, 1, 1⟩], [(0, 0)], [⟨0, 0, true⟩], [], true⟩ : FilterState Nat)
          (⟨0, 0, true⟩ : TrackerObj Nat).keyVal ≠ 1 →
        s'.queue = (⟨2, [⟨0, 1, 1⟩], [(0, 0)], [⟨0, 0, true⟩], [], true⟩ : FilterState Nat).queue)) := by
  have hreach : Reachable 2 (⟨2, [⟨0, 1, 1⟩], [(0, 0)], [⟨0, 0, true⟩], [], true⟩ : FilterState Nat) :=
    Relation.ReflTransGen.single (Step.newChan 0 0 (by decide))
  have ht : (⟨2, [⟨0, 1, 1⟩], [(0, 0)], [⟨0, 0, true⟩], [], true⟩ : FilterState Nat).trackers[0]? =
      some ⟨0, 0, true⟩ := by decide
  have halive : (⟨0, 0, true⟩ : TrackerObj Nat).alive = true := by decide
  exact ⟨hreach, C4_last_drop_notifies hreach ht halive⟩

/-- C6: whenever a poll of the filter reports completion, the upstream
listener was exhausted, no closed-key notification remained unprocessed
(a notification that was ready when the listener ended has been applied
to the map before completion was reported, leaving the queue empty), and
every subsequent poll reports completion again with the state unchanged —
the stream never yields after completing. -/
theorem C6_termination {I K : Type} [DecidableEq K] (km : I → K) (fs : FilterState K)
    (ls : ListenerState I) (rejs : List K)
    (h : (pollNext km fs ls rejs).outcome = .completed) :
    (pollNext km fs ls rejs).listener.pending = [] ∧
    (pollNext km fs ls rejs).listener.closed = true ∧
    ((pollNext km fs ls rejs).fs).queue = [] ∧
    ∀ rejs2 : List K,
      pollNext km (pollNext km fs ls rejs).fs (pollNext km fs ls rejs).listener rejs2 =
        ⟨.completed, (pollNext km fs ls rejs).fs, (pollNext km fs ls rejs).listener, rejs2⟩ := by
  obtain ⟨h1, h2, h3⟩ := pollNextGo_completed_props km
    (ls.pending.length + fs.queue.length + 1) fs ls rejs (by omega) h
  have h1' : (pollNext km fs ls rejs).listener.pending = [] := h1
  have h2' : (pollNext km fs ls rejs).listener.closed = true := h2
  have h3' : ((pollNext km fs ls rejs).fs).queue = [] := h3
  refine ⟨h1', h2', h3', ?_⟩
  intro rejs2
  rw [pollNext_nil_nil_eq h1' h3', if_pos h2']

theorem C6_termination_witness :
    (pollNext (id : Nat → Nat) (⟨2, [⟨0, 0, 0⟩], [(0, 0)], [⟨0, 0, false⟩], [0], true⟩ : FilterState Nat)
        ⟨[], true⟩ []).outcome = .completed ∧
    ((pollNext (id : Nat → Nat) (⟨2, [⟨0, 0, 0⟩], [(0, 0)], [⟨0, 0, false⟩], [0], true⟩ : FilterState Nat)
        ⟨[], true⟩ []).listener.pending = [] ∧
      (pollNext (id : Nat → Nat) (⟨2, [⟨0, 0, 0⟩], [(0, 0)], [⟨0, 0, false⟩], [0], true⟩ : FilterState Nat)
        ⟨[], true⟩ []).listener.closed = true ∧
      ((pollNext (id : Nat → Nat) (⟨2, [⟨0, 0, 0⟩], [(0, 0)], [⟨0, 0, false⟩], [0], true⟩ : FilterState Nat)
        ⟨[], true⟩ []).fs).queue = [] ∧
      pollNext (id : Nat → Nat)
          (pollNext (id : Nat → Nat) (⟨2, [⟨0, 0, 0⟩], [(0, 0)], [⟨0, 0, false⟩], [0], true⟩ : FilterState Nat)
            ⟨[], true⟩ []).fs
          (pollNext (id : Nat → Nat) (⟨2, [⟨0, 0, 0⟩], [(0, 0)], [⟨0, 0, false⟩], [0], true⟩ : FilterState Nat)
            ⟨[], true⟩ []).listener [] =
        ⟨.completed,
          (pollNext (id : Nat → Nat) (⟨2, [⟨0, 0, 0⟩], [(0, 0)], [⟨0, 0, false⟩], [0], true⟩ : FilterState Nat)
            ⟨[], true⟩ []).fs,
          (pollNext (id : Nat → Nat) (⟨2, [⟨0, 0, 0⟩], [(0, 0)], [⟨0, 0, false⟩], [0], true⟩ : FilterState Nat)
            ⟨[], true⟩ []).listener, []⟩) := by
  have h : (pollNext (id : Nat → Nat)
      (⟨2, [⟨0, 0, 0⟩], [(0, 0)], [⟨0, 0, false⟩], [0], true⟩ : FilterState Nat)
      ⟨[], true⟩ []).outcome = .completed := by decide
  obtain ⟨h1, h2, h3, h4⟩ := C6_termination (id : Nat → Nat)
    (⟨2, [⟨0, 0, 0⟩], [(0, 0)], [⟨0, 0, false⟩], [0], true⟩ : FilterState Nat) ⟨[], true⟩ [] h
  exact ⟨h, h1, h2, h3, h4 []⟩

/-- C7 (amended): the poll loop evaluates the tuple
`(poll_listener(cx), poll_closed_channels(cx))` left to right, so when
both event sources are ready in the same poll cycle the admission
decision for the newly arriving channel is made against the map BEFORE
the closed key's entry is removed, and the removal is then applied — in
the same iteration — to the post-admission state. -/
theorem C7_admission_before_cleanup {I K : Type} [DecidableEq K] {km : I → K}
    {fs : FilterState K} {ls : ListenerState I} {rejs : List K} {item : I} {rest : List I}
    {chan : TrackedChannel I} {fs1 : FilterState K} {kq : K} {qrest : List K}
    (hp : ls.pending = item :: rest) (hq : fs.queue = kq :: qrest)
    (hh : handle_new_channel km fs item = .ok chan fs1) :
    pollNext km fs ls rejs =
      ⟨.yielded chan,
        { fs1 with key_counts := compact (aremove fs1.key_counts kq), queue := qrest },
        { ls with pending := rest }, rejs⟩ := by
  have hq1 : fs1.queue = kq :: qrest := by
    obtain ⟨hinc, -⟩ := handle_ok_inv hh
    obtain ⟨-, hcase⟩ := increment_ok_inv hinc
    rcases hcase with ⟨-, rfl⟩ | ⟨cid, c, -, -, -, -, rfl⟩ <;> exact hq
  rw [pollNext]
  exact pollNextGo_succ_ok_queue _ hp hh hq1

/-- C7, counterexample to the claimed order: a reachable state in which a
closed-key notification for key 0 is pending and a new arrival for key 0
is ready.  The real poll polls the listener first: the admission runs
against the stale map entry and panics on the dead `Weak<K>`.  Under the
spec's claimed order (cleanup before arrival) the entry would have been
removed first and the arrival admitted and yielded. -/
theorem C7_order_counterexample :
    Reachable 1 (⟨1, [⟨0, 0, 0⟩], [(0, 0)], [⟨0, 0, false⟩], [0], true⟩ : FilterState Nat) ∧
    (pollNext (id : Nat → Nat) (⟨1, [⟨0, 0, 0⟩], [(0, 0)], [⟨0, 0, false⟩], [0], true⟩ : FilterState Nat)
      ⟨[0], false⟩ []).outcome = .panicked ∧
    (specOrderPollNext (id : Nat → Nat)
      (⟨1, [⟨0, 0, 0⟩], [(0, 0)], [⟨0, 0, false⟩], [0], true⟩ : FilterState Nat)
      ⟨[0], false⟩ []).outcome = .yielded ⟨0, 1⟩ := by
  have h1 : Step (initState Nat 1)
      (⟨1, [⟨0, 1, 1⟩], [(0, 0)], [⟨0, 0, true⟩], [], true⟩ : FilterState Nat) :=
    Step.newChan 0 0 (by decide)
  have h2 : Step (⟨1, [⟨0, 1, 1⟩], [(0, 0)], [⟨0, 0, true⟩], [], true⟩ : FilterState Nat)
      (⟨1, [⟨0, 0, 0⟩], [(0, 0)], [⟨0, 0, false⟩], [0], true⟩ : FilterState Nat) :=
    Step.dropChan 0 (by decide)
  exact ⟨Relation.ReflTransGen.tail (Relation.ReflTransGen.single h1) h2, by decide, by decide⟩

theorem C7_admission_before_cleanup_witness :
    pollNext (id : Nat → Nat)
        (⟨2, [⟨9, 0, 0⟩, ⟨1, 1, 1⟩], [(9, 0), (1, 1)], [⟨9, 0, false⟩, ⟨1, 1, true⟩], [9], true⟩ :
          FilterState Nat)
        ⟨[1], false⟩ [] =
      ⟨.yielded ⟨1, 2⟩,
        { (⟨2, [⟨9, 0, 0⟩, ⟨1, 2, 2⟩], [(9, 0), (1, 1)],
            [⟨9, 0, false⟩, ⟨1, 1, true⟩, ⟨1, 1, true⟩], [9], true⟩ : FilterState Nat) with
          key_counts := compact (aremove [(9, 0), (1, 1)] 9), queue := ([] : List Nat) },
        ⟨[], false⟩, []⟩ := by
  have hp : (⟨[1], false⟩ : ListenerState Nat).pending = 1 :: [] := by decide
  have hq : (⟨2, [⟨9, 0, 0⟩, ⟨1, 1, 1⟩], [(9, 0), (1, 1)], [⟨9, 0, false⟩, ⟨1, 1, true⟩], [9], true⟩ :
      FilterState Nat).queue = 9 :: [] := by decide
  have hh : handle_new_channel (id : Nat → Nat)
      (⟨2, [⟨9, 0, 0⟩, ⟨1, 1, 1⟩], [(9, 0), (1, 1)], [⟨9, 0, false⟩, ⟨1, 1, true⟩], [9], true⟩ :
        FilterState Nat) 1 =
      .ok ⟨1, 2⟩ (⟨2, [⟨9, 0, 0⟩, ⟨1, 2, 2⟩], [(9, 0), (1, 1)],
        [⟨9, 0, false⟩, ⟨1, 1, true⟩, ⟨1, 1, true⟩], [9], true⟩ : FilterState Nat) := by decide
  exact C7_admission_before_cleanup hp hq hh

/-- C8: a rejection is purely local — `Err(key)` returns the original key
unchanged and carries no state change (the `Occupied` arm's reject path
touches neither the map entry nor the counters, and no tracker is
created), a rejection happens only when the entry's count is at or above
the ceiling, any channel yielded by a poll carries a freshly admitted
live tracker (so a rejected arrival is never yielded), and after a
rejection the same poll continues with the remaining arrivals rather
than stalling. -/
theorem C8_rejection_local {I K : Type} [DecidableEq K] (km : I → K) :
    (∀ (s : FilterState K) (key k' : K), increment_channels_for_key s key = .rejected k' →
      k' = key ∧ ∃ cid c, alookup s.key_counts key = some cid ∧ s.cells[cid]? = some c ∧
        s.channels_per_key ≤ c.cnt) ∧
    (∀ (fs : FilterState K) (ls : ListenerState I) (rejs : List K) (chan : TrackedChannel I),
      (pollNext km fs ls rejs).outcome = .yielded chan →
      ∃ t, ((pollNext km fs ls rejs).fs).trackers[chan.trackerId]? = some t ∧ t.alive = true) ∧
    (∀ (fs : FilterState K) (ls : ListenerState I) (rejs : List K) (item : I) (rest : List I)
      (k : K), ls.pending = item :: rest → handle_new_channel km fs item = .rejected k →
      fs.queue = [] →
      pollNext km fs ls rejs = pollNext km fs { ls with pending := rest } (rejs ++ [k])) := by
  refine ⟨?_, ?_, ?_⟩
  · intro s key k' h
    exact increment_rejected_inv h
  · intro fs ls rejs chan h
    exact pollNextGo_yielded_tracker km (ls.pending.length + fs.queue.length + 1)
      fs ls rejs chan (by omega) h
  · intro fs ls rejs item rest k hp hh hq
    exact pollNext_rejected_nil_eq hp hh hq

theorem C8_rejection_local_witness :
    ((0 : Nat) = 0 ∧ ∃ cid c,
      alookup (⟨1, [⟨0, 1, 1⟩], [(0, 0)], [⟨0, 0, true⟩], [], true⟩ : FilterState Nat).key_counts 0 =
        some cid ∧
      (⟨1, [⟨0, 1, 1⟩], [(0, 0)], [⟨0, 0, true⟩], [], true⟩ : FilterState Nat).cells[cid]? = some c ∧
      (⟨1, [⟨0, 1, 1⟩], [(0, 0)], [⟨0, 0, true⟩], [], true⟩ : FilterState Nat).channels_per_key ≤
        c.cnt) ∧
    pollNext (id : Nat → Nat) (⟨1, [⟨0, 1, 1⟩], [(0, 0)], [⟨0, 0, true⟩], [], true⟩ : FilterState Nat)
        ⟨[0], false⟩ [] =
      pollNext (id : Nat → Nat) (⟨1, [⟨0, 1, 1⟩], [(0, 0)], [⟨0, 0, true⟩], [], true⟩ : FilterState Nat)
        ⟨[], false⟩ ([] ++ [0]) := by
  constructor
  · exact (C8_rejection_local (id : Nat → Nat)).1
      (⟨1, [⟨0, 1, 1⟩], [(0, 0)], [⟨0, 0, true⟩], [], true⟩ : FilterState Nat) 0 0 (by decide)
  · exact (C8_rejection_local (id : Nat → Nat)).2.2
      (⟨1, [⟨0, 1, 1⟩], [(0, 0)], [⟨0, 0, true⟩], [], true⟩ : FilterState Nat)
      ⟨[0], false⟩ [] 0 [] 0 (by decide) (by decide) (by decide)

/-- C9: in any reachable state with the queue's consuming end open, if no
live tracker references key `k`, then polling the filter until quiescent
(a poll with no further arrivals) leaves `k` absent from the key-count
map: the pending closed-key notification for `k`, if any, is processed
and removes the entry. -/
theorem C9_cleanup_reclamation {I K : Type} [DecidableEq K] (km : I → K) {cpk : Nat}
    {s : FilterState K} (hreach : Reachable cpk s) (hrx : s.rxOpen = true) (k : K)
    (hnone : ∀ t ∈ s.trackers, t.alive = true → t.keyVal ≠ k)
    (ls : ListenerState I) (hpending : ls.pending = []) (rejs : List K) :
    alookup ((pollNext km s ls rejs).fs).key_counts k = none := by
  have inv := reachable_inv hreach
  have hdrain := pollNextGo_drain km (ls.pending.length + s.queue.length + 1) s ls rejs
    hpending (by omega)
  rw [pollNext, hdrain]
  dsimp only
  apply alookup_foldl_remove _ _ _ inv.nodup_keys
  cases hl : alookup s.key_counts k with
  | none =>
      left
      rfl
  | some cid =>
      right
      rcases inv.entry_live hrx k cid hl with hpos | hq
      · exfalso
        rw [aliveCount] at hpos
        obtain ⟨t, ht, hpt⟩ := List.countP_pos_iff.mp hpos
        simp only [Bool.and_eq_true, decide_eq_true_eq] at hpt
        obtain ⟨ha, hcid⟩ := hpt
        obtain ⟨c0, hc0, hk0⟩ := inv.tracker_cell t ht ha
        obtain ⟨c1, hc1, hk1⟩ := inv.entry_cell k cid hl
        rw [hcid, hc1] at hc0
        injection hc0 with hc0
        apply hnone t ht ha
        rw [← hk0, ← hc0]
        exact hk1
      · exact hq

theorem C9_cleanup_reclamation_witness :
    Reachable 2 (⟨2, [⟨0, 0, 0⟩], [(0, 0)], [⟨0, 0, false⟩], [0], true⟩ : FilterState Nat) ∧
    alookup ((pollNext (id : Nat → Nat)
      (⟨2, [⟨0, 0, 0⟩], [(0, 0)], [⟨0, 0, false⟩], [0], true⟩ : FilterState Nat)
      ⟨[], false⟩ []).fs).key_counts 0 = none := by
  have h1 : Step (initState Nat 2)
      (⟨2, [⟨0, 1, 1⟩], [(0, 0)], [⟨0, 0, true⟩], [], true⟩ : FilterState Nat) :=
    Step.newChan 0 0 (by decide)
  have h2 : Step (⟨2, [⟨0, 1, 1⟩], [(0, 0)], [⟨0, 0, true⟩], [], true⟩ : FilterState Nat)
      (⟨2, [⟨0, 0, 0⟩], [(0, 0)], [⟨0, 0, false⟩], [0], true⟩ : FilterState Nat) :=
    Step.dropChan 0 (by decide)
  have hreach : Reachable 2 (⟨2, [⟨0, 0, 0⟩], [(0, 0)], [⟨0, 0, false⟩], [0], true⟩ : FilterState Nat) :=
    Relation.ReflTransGen.tail (Relation.ReflTransGen.single h1) h2
  refine ⟨hreach, ?_⟩
  exact C9_cleanup_reclamation (id : Nat → Nat) hreach (by decide) 0 (by decide)
    ⟨[], false⟩ (by decide) []

end Tarpc
